import Mathlib

/-!
# JSON decoding of go-amino (`json_decode.go`)

A shallow embedding of the reflective JSON decoder of go-amino.  Go values
reached through `reflect.Value` are modelled by the tree type `Value`; a call
that mutates its destination in place is modelled by a function returning the
destination's content after the call together with the returned error.
-/

set_option autoImplicit false

namespace Amino

/-! ## Bytes and Go strings -/

/-- A Go `[]byte` (and a Go `string`, which is a byte sequence). -/
abbrev Bytes := List Nat

/-- The bytes of an ASCII text. -/
def ascii (s : String) : Bytes := s.toList.map Char.toNat

/-! ## Types and values seen through `reflect` -/

/-- Go's `reflect.Kind`. -/
inductive Kind
  | Invalid | Bool | Int | Int8 | Int16 | Int32 | Int64
  | Uint | Uint8 | Uint16 | Uint32 | Uint64 | Uintptr
  | Float32 | Float64 | Complex64 | Complex128
  | Array | Chan | Func | Interface | Map | Ptr | Slice | String | Struct
  | UnsafePointer
  deriving DecidableEq, Repr

/-- The four kinds `decodeReflectJSON` decodes from quoted text. -/
def is64 (k : Kind) : Bool :=
  k = .Int64 || k = .Int || k = .Uint64 || k = .Uint

/-- The six integer kinds `decodeReflectJSON` decodes from a bare number. -/
def isNarrowInt (k : Kind) : Bool :=
  k = .Int32 || k = .Int16 || k = .Int8 || k = .Uint32 || k = .Uint16 || k = .Uint8

/-- The two floating-point kinds. -/
def isFloat (k : Kind) : Bool :=
  k = .Float32 || k = .Float64

/-- The kinds whose values have no component the decoder descends into. -/
inductive Basic
  | Bool | Int | Int8 | Int16 | Int32 | Int64
  | Uint | Uint8 | Uint16 | Uint32 | Uint64 | Uintptr
  | Float32 | Float64 | Complex64 | Complex128
  | Chan | Func | Map | String | UnsafePointer
  deriving DecidableEq, Repr

/-- The `reflect.Kind` of a basic type. -/
def Basic.kind : Basic → Kind
  | .Bool => .Bool | .Int => .Int | .Int8 => .Int8 | .Int16 => .Int16
  | .Int32 => .Int32 | .Int64 => .Int64
  | .Uint => .Uint | .Uint8 => .Uint8 | .Uint16 => .Uint16
  | .Uint32 => .Uint32 | .Uint64 => .Uint64 | .Uintptr => .Uintptr
  | .Float32 => .Float32 | .Float64 => .Float64
  | .Complex64 => .Complex64 | .Complex128 => .Complex128
  | .Chan => .Chan | .Func => .Func | .Map => .Map | .String => .String
  | .UnsafePointer => .UnsafePointer

/-- A Go type as `reflect.Type` presents it. -/
inductive RType
  | basic (b : Basic)
  | array (len : Nat) (elem : RType)
  | slice (elem : RType)
  | struct (name : String) (fields : List RType)
  | iface (name : String)
  | ptr (elem : RType)

/-- `Type.Kind()`. -/
def RType.kind : RType → Kind
  | .basic b => b.kind
  | .array _ _ => .Array
  | .slice _ => .Slice
  | .struct _ _ => .Struct
  | .iface _ => .Interface
  | .ptr _ => .Ptr

/-- `Type.Elem()`; `none` where Go panics (the type has no element type). -/
def RType.elem? : RType → Option RType
  | .array _ e => some e
  | .slice e => some e
  | .ptr e => some e
  | _ => none

/-- `Type.Len()`; `none` where Go panics (the type is not an array). -/
def RType.len? : RType → Option Nat
  | .array n _ => some n
  | _ => none

/-- The content of a Go variable.  Floating-point numbers are carried as the
decimal numeral `mant * 10 ^ exp`; no rounding is modelled. -/
inductive Value
  | bool (b : Bool)
  | int (k : Basic) (n : Int)
  | float (k : Basic) (mant : Int) (exp : Int)
  | str (s : Bytes)
  | other (k : Basic)
  | array (elem : RType) (elems : List Value)
  | slice (elem : RType) (elems : Option (List Value))
  | struct (name : String) (fields : List Value)
  | iface (name : String) (dyn : Option Value)
  | ptr (elem : RType) (target : Option Value)

mutual
/-- `Value.Type()`. -/
def Value.typeOf : Value → RType
  | .bool _ => .basic .Bool
  | .int k _ => .basic k
  | .float k _ _ => .basic k
  | .str _ => .basic .String
  | .other k => .basic k
  | .array e xs => .array xs.length e
  | .slice e _ => .slice e
  | .struct n fs => .struct n (Value.typesOf fs)
  | .iface n _ => .iface n
  | .ptr e _ => .ptr e
/-- The types of a list of values. -/
def Value.typesOf : List Value → List RType
  | [] => []
  | v :: vs => v.typeOf :: Value.typesOf vs
end

/-- `Value.Kind()`. -/
def Value.kind (v : Value) : Kind := v.typeOf.kind

/-- The zero value of a basic type. -/
def Basic.zero : Basic → Value
  | .Bool => .bool false
  | .Int => .int .Int 0 | .Int8 => .int .Int8 0 | .Int16 => .int .Int16 0
  | .Int32 => .int .Int32 0 | .Int64 => .int .Int64 0
  | .Uint => .int .Uint 0 | .Uint8 => .int .Uint8 0 | .Uint16 => .int .Uint16 0
  | .Uint32 => .int .Uint32 0 | .Uint64 => .int .Uint64 0
  | .Uintptr => .int .Uintptr 0
  | .Float32 => .float .Float32 0 0 | .Float64 => .float .Float64 0 0
  | .String => .str []
  | .Complex64 => .other .Complex64 | .Complex128 => .other .Complex128
  | .Chan => .other .Chan | .Func => .other .Func | .Map => .other .Map
  | .UnsafePointer => .other .UnsafePointer

mutual
/-- `reflect.Zero(t)`: the zero value of a type. -/
def zero : RType → Value
  | .basic b => b.zero
  | .array n e => .array e (List.replicate n (zero e))
  | .slice e => .slice e none
  | .struct name fs => .struct name (zeros fs)
  | .iface name => .iface name none
  | .ptr e => .ptr e none
/-- The zero values of a list of types. -/
def zeros : List RType → List Value
  | [] => []
  | t :: ts => zero t :: zeros ts
end

/-! ## Errors and outcomes -/

/-- The errors the decoder returns, one constructor per error site of
`json_decode.go`, plus the errors handed back by its collaborators. -/
inductive Error
  /-- "Amino:JSON int/int64/uint/uint64 expects quoted values ...", with the input. -/
  | quotedIntExpected (got : Bytes)
  /-- "amino:JSON float* support requires amino:unsafe". -/
  | floatRequiresUnsafe
  /-- "decodeReflectJSONArray: byte-length mismatch, got %v want %v". -/
  | byteLengthMismatch (got want : Nat)
  /-- "decodeReflectJSONArray: length mismatch, got %v want %v". -/
  | lengthMismatch (got want : Nat)
  /-- "cannot parse Any JSON wrapper: %v". -/
  | cannotParseAny (inner : Error)
  /-- "JSON encoding of interfaces require non-empty @type field". -/
  | emptyTypeURL
  /-- "expected JSON object but was empty". -/
  | objectEmpty
  /-- "expected JSON object but was not: %s". -/
  | objectExpected (got : Bytes)
  /-- "expected JSON object representing Any to start with \"@type\" field, but got %v". -/
  | typeFieldExpected (got : Bytes)
  /-- "expected JSON object representing Any to start with \"@type\":\"%v\", but got %v". -/
  | typeURLExpected (typeURL got : Bytes)
  /-- An error of `encoding/json`. -/
  | json (msg : String)
  /-- An error of the type-descriptor store or of the type-identity registry. -/
  | typeInfo (msg : String)
  /-- An error returned by a type's own hook. -/
  | hook (msg : String)
  deriving DecidableEq, Repr

/-- How a call ends: it returns, leaving `st` in its destination and handing
back `err` (`none` is Go's `nil` error); it panics; or the embedding's
recursion budget is used up. -/
inductive Outcome (σ : Type)
  | ret (st : σ) (err : Option Error)
  | panic (msg : String)
  | outOfFuel

/-- The same outcome with the destination rebuilt by `f`. -/
def Outcome.mapSt {σ τ : Type} (f : σ → τ) : Outcome σ → Outcome τ
  | .ret st err => .ret (f st) err
  | .panic msg => .panic msg
  | .outOfFuel => .outOfFuel

/-- The call returned (with or without an error). -/
def Outcome.returned {σ : Type} : Outcome σ → Bool
  | .ret _ _ => true
  | _ => false

/-- The call returned a non-nil error. -/
def Outcome.failed {σ : Type} : Outcome σ → Bool
  | .ret _ (some _) => true
  | _ => false

/-- The destination after a call that returned. -/
def Outcome.st? {σ : Type} : Outcome σ → Option σ
  | .ret st _ => some st
  | _ => none

/-! ## Type descriptors -/

/-- Modelled from the spec: the declaration of `FieldOptions` is not among the
sources; these are the options of a FieldDescriptor (JSON name, omit-empty,
the "unsafe" flag gating floating point) and the binary-path options. -/
structure FieldOptions where
  JSONName : Bytes := []
  JSONOmitEmpty : Bool := false
  BinFixed64 : Bool := false
  BinFixed32 : Bool := false
  BinFieldNum : Nat := 0
  Unsafe : Bool := false
  WriteEmpty : Bool := false
  EmptyElements : Bool := false
  deriving DecidableEq, Repr

/-- Modelled from the spec: the declaration of `FieldInfo` is not among the
sources; a FieldDescriptor has a declared type, the index of the field in its
struct, and its field options (embedded in Go, so that `field.JSONName` is
`field.FieldOptions.JSONName`).  `Typ` is Go's field `Type`. -/
structure FieldInfo where
  Name : String
  Typ : RType
  Index : Nat
  FieldOptions : FieldOptions

/-- `field.JSONName` through the embedded options. -/
def FieldInfo.JSONName (f : FieldInfo) : Bytes := f.FieldOptions.JSONName

/-- `field.JSONOmitEmpty` through the embedded options. -/
def FieldInfo.JSONOmitEmpty (f : FieldInfo) : Bool := f.FieldOptions.JSONOmitEmpty

/-- Modelled from the spec: the declaration of `TypeInfo` is not among the
sources; a TypeDescriptor has the described type, its zero value, the
well-known flag, the custom-unmarshal-hook flag with its representation type,
the pass-through Any flag, the pointer-preferred flag and the field layout.
`Typ` is Go's field `Type`. -/
structure TypeInfo where
  Typ : RType
  ZeroValue : Value
  PointerPreferred : Bool := false
  IsAminoUnmarshaler : Bool := false
  AminoUnmarshalReprType : RType := .basic .Bool
  IsJSONWellKnownType : Bool := false
  IsJSONAnyValueType : Bool := false
  Fields : List FieldInfo := []

/-! ## Operations of `reflect` on values -/

/-- The content of the destination after `rv.Set(x)` for an `x` whose type is
assignable to the destination's type: the destination takes the content `x`; a
destination of interface type keeps its interface type and holds `x` as its
dynamic value (holds nothing when `x` is a nil interface).  For any other `x`
Go's `rv.Set(x)` panics: that is `assignableTo`, which the decoder asks
wherever the type of `x` is not the destination's own by construction. -/
def Value.set (rv x : Value) : Value :=
  match rv with
  | .iface n _ =>
    match x with
    | .iface _ d => .iface n d
    | _ => .iface n (some x)
  | _ => x

mutual
/-- Identity of two types. -/
def RType.same : RType → RType → Bool
  | .basic a, .basic b => decide (a = b)
  | .array n e, .array m f => decide (n = m) && e.same f
  | .slice e, .slice f => e.same f
  | .struct n fs, .struct m gs => decide (n = m) && RType.sameAll fs gs
  | .iface n, .iface m => decide (n = m)
  | .ptr e, .ptr f => e.same f
  | _, _ => false
/-- Identity of two lists of types. -/
def RType.sameAll : List RType → List RType → Bool
  | [], [] => true
  | t :: ts, u :: us => t.same u && RType.sameAll ts us
  | _, _ => false
end

/-- `t.AssignableTo(u)`, the test `reflect.Value.Set` makes before it stores a
value of type `t` in a variable of type `u` (it panics when the test fails):
the types are identical, or `u` is an interface type that `t` implements.
Method sets are not part of `RType`; `implements` tells which types implement
which interface types. -/
def assignableTo (implements : RType → RType → Bool) (t u : RType) : Bool :=
  t.same u || (decide (u.kind = Kind.Interface) && implements t u)

/-- `rv.IsNil()`; `none` where Go panics (the kind has no nil). -/
def Value.isNil? : Value → Option Bool
  | .slice _ elems => some elems.isNone
  | .iface _ dyn => some dyn.isNone
  | .ptr _ target => some target.isNone
  | .other .Chan => some true
  | .other .Func => some true
  | .other .Map => some true
  | .other .UnsafePointer => some true
  | _ => none

/-- The elements of an array or slice (none for a nil slice). -/
def Value.elems : Value → List Value
  | .array _ xs => xs
  | .slice _ (some xs) => xs
  | _ => []

/-- `rv.Len()`; `none` where Go panics (the kind has no length). -/
def Value.len? : Value → Option Nat
  | .array _ xs => some xs.length
  | .slice _ (some xs) => some xs.length
  | .slice _ none => some 0
  | .str s => some s.length
  | .other .Chan => some 0
  | .other .Map => some 0
  | _ => none

/-- `rv.Index(i)`; `none` where Go panics. -/
def Value.index? : Value → Nat → Option Value
  | .array _ xs, i => xs[i]?
  | .slice _ (some xs), i => xs[i]?
  | _, _ => none

/-- The array or slice with element `i` replaced (a write through `rv.Index(i)`). -/
def Value.setIndex : Value → Nat → Value → Value
  | .array e xs, i, x => .array e (xs.set i x)
  | .slice e (some xs), i, x => .slice e (some (xs.set i x))
  | v, _, _ => v

/-- `rv.Field(i)`; `none` where Go panics. -/
def Value.field? : Value → Nat → Option Value
  | .struct _ fs, i => fs[i]?
  | _, _ => none

/-- The struct with field `i` replaced (a write through `rv.Field(i)`). -/
def Value.setField : Value → Nat → Value → Value
  | .struct n fs, i, x => .struct n (fs.set i x)
  | v, _, _ => v

/-- Whether a type is `uint8`, the element type of `[]byte`. -/
def RType.isByte : RType → Bool
  | .basic .Uint8 => true
  | _ => false

/-- `reflect.Copy(dst, src)` for a `src` of type `[]byte`: the first
`min(len(dst), len(src))` elements of `dst` are overwritten; `none` where Go
panics (`dst` is neither array nor slice, or its element type is not `uint8`). -/
def reflectCopy (dst src : Value) : Option Value :=
  match dst with
  | .array e xs =>
    if e.isByte then some (.array e (src.elems.take xs.length ++ xs.drop src.elems.length))
    else none
  | .slice e (some xs) =>
    if e.isByte then some (.slice e (some (src.elems.take xs.length ++ xs.drop src.elems.length)))
    else none
  | .slice e none => if e.isByte then some (.slice e none) else none
  | _ => none

/-- The value the loop `for rv.Kind() == reflect.Ptr` ends at when it starts
at a nil pointer to `t`, allocating at every level. -/
def RType.derefNew : RType → Value
  | .ptr e => e.derefNew
  | t => zero t

/-- The value the loop `for rv.Kind() == reflect.Ptr { if rv.IsNil() {
rv.Set(reflect.New(rv.Type().Elem())) }; rv = rv.Elem() }` ends at. -/
def Value.derefPtrs : Value → Value
  | .ptr _ (some t) => t.derefPtrs
  | .ptr e none => e.derefNew
  | v => v

/-- The freshly allocated pointer chain below a nil pointer to `t`, with `x`
in its innermost variable. -/
def RType.storeNew : RType → Value → Value
  | .ptr e, x => .ptr e (some (e.storeNew x))
  | _, x => x

/-- The destination after the pointer loop ran and the innermost variable
took the content `x`: nil levels hold new pointers, the others are kept. -/
def Value.storePtrs : Value → Value → Value
  | .ptr e (some t), x => .ptr e (some (t.storePtrs x))
  | .ptr e none, x => .ptr e (some (e.storeNew x))
  | _, x => x

/-- The number of iterations of the pointer loop below a nil pointer to `t`. -/
def RType.derefSteps : RType → Nat
  | .ptr e => e.derefSteps + 1
  | _ => 0

/-- The number of iterations of the pointer loop. -/
def Value.derefSteps : Value → Nat
  | .ptr _ (some t) => t.derefSteps + 1
  | .ptr e none => e.derefSteps + 1
  | _ => 0

/-- One iteration of the loop `for rv.Kind() == reflect.Ptr`: `none` when the
variable `rv` is not a pointer (the loop ends); otherwise the variable
`rv.Elem()` the next iteration looks at, which for a nil `rv` is the new
variable of `reflect.New(rv.Type().Elem())`. -/
def derefStep : Value → Option Value
  | .ptr e none => some (zero e)
  | .ptr _ (some t) => some t
  | _ => none

/-- The pointer loop run for at most `fuel` iterations: the variable it ends
at and the number of iterations it made; `none` when `fuel` iterations do not
end it. -/
def derefLoop : Nat → Value → Option (Value × Nat)
  | 0, rv =>
    match derefStep rv with
    | none => some (rv, 0)
    | some _ => none
  | fuel + 1, rv =>
    match derefStep rv with
    | none => some (rv, 0)
    | some next => (derefLoop fuel next).map (fun r => (r.1, r.2 + 1))

/-- No level of the pointer chain is nil. -/
def Value.allocated : Value → Bool
  | .ptr _ none => false
  | .ptr _ (some t) => t.allocated
  | _ => true

/-! ## Collaborators outside `json_decode.go` -/

/-- The calls into `encoding/json`, one per target type the decoder uses. -/
structure Stdlib where
  /-- `json.Unmarshal(bz, p)` where `p` points at a variable holding the given
  value: the variable's content after the call, and the error. -/
  Unmarshal : Bytes → Value → Value × Option Error
  /-- `json.Unmarshal(bz, &rawSlice)` for a nil `[]json.RawMessage`. -/
  UnmarshalRawSlice : Bytes → Except Error (List Bytes)
  /-- `json.Unmarshal(bz, &rawMap)` for an empty `map[string]json.RawMessage`,
  the map as the list of its entries. -/
  UnmarshalRawMap : Bytes → Except Error (List (Bytes × Bytes))
  /-- `json.Unmarshal(bz, anyw)` for a new `anyWrapper`: its `TypeURL` and
  `Value` members. -/
  UnmarshalAnyWrapper : Bytes → Except Error (Bytes × Bytes)

/-- What `decodeReflectJSONWellKnown` hands back: the destination's content
after the call, whether the value was handled, and the error. -/
structure WellKnownResult where
  rv : Value
  ok : Bool
  err : Option Error

/-- The codec as the decoder sees it: the type-descriptor store, the
type-identity registry, and the hooks of the registered types, none of which
is defined in `json_decode.go`; with them, what `reflect` knows of the method
sets of the program's types. -/
structure Codec where
  /-- The package `encoding/json`. -/
  json : Stdlib
  /-- `cdc.getTypeInfoWLock(rt)`. -/
  getTypeInfoWLock : RType → Except Error TypeInfo
  /-- `cdc.getTypeInfoFromTypeURLRLock(typeURL, fopts)`. -/
  getTypeInfoFromTypeURLRLock : Bytes → FieldOptions → Except Error TypeInfo
  /-- `decodeReflectJSONWellKnown(bz, info, rv, fopts)`. -/
  decodeReflectJSONWellKnown : Bytes → TypeInfo → Value → FieldOptions → WellKnownResult
  /-- The method `UnmarshalAmino` called on the address of a variable holding
  the first value, with the representation instance as argument: the
  variable's content after the call, and the returned error. -/
  UnmarshalAmino : Value → Value → Value × Option Error
  /-- `t.Implements(u)` of `reflect` for an interface type `u`: the method set
  of `t` has the methods of `u`. -/
  implements : RType → RType → Bool

/-- Modelled from the spec: `constructConcreteType` is not among the sources;
the decoder "allocates a zero concrete instance" of the resolved type.  The
first component is that instance; the second gives, from the instance's
content at the time of `rv.Set(irvSet)`, the value stored in the interface: a
pointer to the instance when the descriptor prefers pointers, the instance
itself otherwise. -/
def constructConcreteType (cinfo : TypeInfo) : Value × (Value → Value) :=
  (zero cinfo.Typ,
   fun crv => if cinfo.PointerPreferred then .ptr cinfo.Typ (some crv) else crv)

/-- Modelled from the spec: the type of the value `irvSet` that
`constructConcreteType` hands back: a pointer to the resolved type when the
descriptor prefers pointers, the resolved type itself otherwise. -/
def concreteSetType (cinfo : TypeInfo) : RType :=
  if cinfo.PointerPreferred then .ptr cinfo.Typ else cinfo.Typ

/-! ## `json_decode.go` -/

/-- A call `cdc.decodeReflectJSON(bz, info, rv, fopts)`. -/
abbrev Decoder := Bytes → TypeInfo → Value → FieldOptions → Outcome Value

/-- `nullBytes`: the bytes are exactly `null`. -/
def nullBytes (b : Bytes) : Bool := b == ascii "null"

/-- `unquoteString`. -/
def unquoteString (J : Stdlib) (inp : Bytes) : Value × Option Error :=
  J.Unmarshal inp (.str [])

/-- `strings.HasPrefix`. -/
def hasPrefix (s pre : Bytes) : Bool := pre.isPrefixOf s

/-- `strings.TrimLeft` for a cutset of ASCII characters. -/
def trimLeft (s cutset : Bytes) : Bytes := s.dropWhile (fun b => cutset.contains b)

/-- The cutset `" \t\r\n"`. -/
def whitespace : Bytes := [32, 9, 13, 10]

/-- `invokeStdlibJSONUnmarshal`.  For a destination that is not a pointer the
text is parsed into a new variable of the destination's type, which is stored
only when the parse succeeds.  For a pointer the text is parsed into its
target; `json.Unmarshal` rejects a nil pointer, and after a successful parse
`rv.Set(rrv.Elem())` panics, the target not being assignable to the pointer. -/
def invokeStdlibJSONUnmarshal (J : Stdlib) (bz : Bytes) (rv : Value)
    (_fopts : FieldOptions) : Outcome Value :=
  match rv with
  | .ptr e none => .ret (.ptr e none) (some (.json "json: Unmarshal(nil pointer)"))
  | .ptr e (some t) =>
    match J.Unmarshal bz t with
    | (t1, some err) => .ret (.ptr e (some t1)) (some err)
    | (_, none) => .panic "reflect.Set: value is not assignable to the pointer type"
  | _ =>
    match J.Unmarshal bz (zero rv.typeOf) with
    | (_, some err) => .ret rv (some err)
    | (v, none) => .ret (rv.set v) none

/-- `extractJSONTypeURL`: the `@type` and `value` members of the envelope. -/
def extractJSONTypeURL (J : Stdlib) (bz : Bytes) : Except Error (Bytes × Bytes) :=
  match J.UnmarshalAnyWrapper bz with
  | .error err => .error (.cannotParseAny err)
  | .ok (typeURL, value) =>
    if typeURL = [] then .error .emptyTypeURL
    else .ok (typeURL, value)

/-- `deriveJSONObject`. -/
def deriveJSONObject (bz typeURL : Bytes) : Except Error Bytes :=
  let str := bz
  if bz.length = 0 then .error .objectEmpty
  else if !hasPrefix str (ascii "\x7b") then .error (.objectExpected bz)
  else
    let str := trimLeft str whitespace
    if !hasPrefix str (ascii "\"@type\"") then .error (.typeFieldExpected bz)
    else
      let str := str.drop 7
      let str := trimLeft str whitespace
      if !hasPrefix str (ascii ":") then .error (.typeFieldExpected bz)
      else
        let str := str.drop 1
        let str := trimLeft str whitespace
        if !hasPrefix str (ascii "\"" ++ typeURL ++ ascii "\"") then
          .error (.typeURLExpected typeURL bz)
        else
          let str := str.drop (2 + typeURL.length)
          let str := trimLeft str (ascii ",")
          .ok (ascii "\x7b" ++ str)

/-- `decodeReflectJSONInterface`, with `dec` the recursive call
`cdc.decodeReflectJSON`.  The type of `irvSet` is not the destination's own,
so `rv.Set(irvSet)`, which the code reaches with and without a decode error,
panics when that type is not assignable to the destination's type. -/
def decodeReflectJSONInterface (cdc : Codec) (dec : Decoder) (bz : Bytes)
    (iinfo : TypeInfo) (rv : Value) (fopts : FieldOptions) : Outcome Value :=
  match rv.isNil? with
  | none => .panic "reflect: call of reflect.Value.IsNil on a value without nil"
  | some isNil =>
    let rt := rv.typeOf
    let rv := if !isNil then rv.set iinfo.ZeroValue else rv
    -- Extract type_url.
    match extractJSONTypeURL cdc.json bz with
    | .error err => .ret rv (some err)
    | .ok (typeURL, value) =>
      -- Get concrete type info.
      match cdc.getTypeInfoFromTypeURLRLock typeURL fopts with
      | .error err => .ret rv (some err)
      | .ok cinfo =>
        -- Extract the value bytes.
        match (if cinfo.IsJSONAnyValueType then .ok value
               else deriveJSONObject bz typeURL) with
        | .error err => .ret rv (some err)
        | .ok bz =>
          -- Construct the concrete type.
          let (crv, irvSet) := constructConcreteType cinfo
          -- Decode into the concrete type, then `rv.Set(irvSet)`.
          match dec bz cinfo crv fopts with
          | .ret crv err =>
            if assignableTo cdc.implements (concreteSetType cinfo) rt then
              .ret (rv.set (irvSet crv)) err
            else .panic "reflect.Set: value is not assignable to the destination type"
          | .panic msg => .panic msg
          | .outOfFuel => .outOfFuel

/-- The loop `for i := 0; i < length; i++` of the array and slice decoders,
with `n` iterations left: element `i` of `rv` is decoded from `rawSlice[i]`,
and the first error ends the loop. -/
def decodeElems (dec : Decoder) (einfo : TypeInfo) (fopts : FieldOptions)
    (rawSlice : List Bytes) : Nat → Nat → Value → Outcome Value
  | 0, _, rv => .ret rv none
  | n + 1, i, rv =>
    match rv.index? i with
    | none => .panic "reflect: array index out of range"
    | some erv =>
      match rawSlice[i]? with
      | none => .panic "index out of range"
      | some ebz =>
        match dec ebz einfo erv fopts with
        | .ret erv none => decodeElems dec einfo fopts rawSlice n (i + 1) (rv.setIndex i erv)
        | .ret erv (some err) => .ret (rv.setIndex i erv) (some err)
        | .panic msg => .panic msg
        | .outOfFuel => .outOfFuel

/-- `decodeReflectJSONArray`, with `dec` the recursive call
`cdc.decodeReflectJSON`. -/
def decodeReflectJSONArray (cdc : Codec) (dec : Decoder) (bz : Bytes)
    (info : TypeInfo) (rv : Value) (fopts : FieldOptions) : Outcome Value :=
  match info.Typ.elem?, info.Typ.len? with
  | some ert, some length =>
    match ert.kind with
    | .Uint8 => -- Special case: byte array
      match cdc.json.Unmarshal bz (.slice (.basic .Uint8) none) with
      | (_, some err) => .ret rv (some err)
      | (buf, none) =>
        let err : Option Error :=
          if buf.elems.length ≠ length then
            some (.byteLengthMismatch buf.elems.length length)
          else none
        match reflectCopy rv buf with
        | none => .panic "reflect.Copy"
        | some rv => .ret rv err
    | _ => -- General case.
      match cdc.getTypeInfoWLock ert with
      | .error err => .ret rv (some err)
      | .ok einfo =>
        -- Read into rawSlice.
        match cdc.json.UnmarshalRawSlice bz with
        | .error err => .ret rv (some err)
        | .ok rawSlice =>
          if rawSlice.length ≠ length then
            .ret rv (some (.lengthMismatch rawSlice.length length))
          else
            -- Decode each item in rawSlice.
            decodeElems dec einfo fopts rawSlice length 0 rv
  | _, _ => .panic "reflect: Elem or Len of a type that is not an array"

/-- `decodeReflectJSONSlice`, with `dec` the recursive call
`cdc.decodeReflectJSON`. -/
def decodeReflectJSONSlice (cdc : Codec) (dec : Decoder) (bz : Bytes)
    (info : TypeInfo) (rv : Value) (fopts : FieldOptions) : Outcome Value :=
  match info.Typ.elem? with
  | none => .panic "reflect: Elem of invalid type"
  | some ert =>
    match ert.kind with
    | .Uint8 => -- Special case: byte slice
      match cdc.json.Unmarshal bz rv with
      | (rv, some err) => .ret rv (some err)
      | (rv, none) =>
        match rv.len? with
        | none => .panic "reflect: call of reflect.Value.Len on a value without length"
        | some n =>
          if n = 0 then .ret (rv.set info.ZeroValue) none
          else .ret rv none
    | _ => -- General case.
      match cdc.getTypeInfoWLock ert with
      | .error err => .ret rv (some err)
      | .ok einfo =>
        -- Read into rawSlice.
        match cdc.json.UnmarshalRawSlice bz with
        | .error err => .ret rv (some err)
        | .ok rawSlice =>
          let length := rawSlice.length
          if length = 0 then .ret (rv.set info.ZeroValue) none
          else
            -- Read into a new slice.
            let srv := Value.slice ert (some (List.replicate length (zero ert)))
            match decodeElems dec einfo fopts rawSlice length 0 srv with
            | .ret srv none => .ret (rv.set srv) none
            | .ret _ (some err) => .ret rv (some err)
            | .panic msg => .panic msg
            | .outOfFuel => .outOfFuel

/-- `rawMap[key]`: the entry's bytes, nil when the map has no such key. -/
def rawMapGet (rawMap : List (Bytes × Bytes)) (key : Bytes) : Bytes :=
  (rawMap.lookup key).getD []

/-- The loop `for _, field := range info.Fields` of the struct decoder over the
fields still to visit. -/
def decodeFields (cdc : Codec) (dec : Decoder) (rawMap : List (Bytes × Bytes))
    (fopts : FieldOptions) : List FieldInfo → Value → Outcome Value
  | [], rv => .ret rv none
  | field :: rest, rv =>
    -- Get field rv and info.
    match rv.field? field.Index with
    | none => .panic "reflect: Field index out of range"
    | some frv =>
      match cdc.getTypeInfoWLock field.Typ with
      | .error err => .ret rv (some err)
      | .ok finfo =>
        -- Get value from rawMap.
        let valueBytes := rawMapGet rawMap field.JSONName
        if valueBytes.length = 0 then
          -- Set to the zero value only if not omitempty
          if !field.JSONOmitEmpty then
            decodeFields cdc dec rawMap fopts rest
              (rv.setField field.Index (frv.set (zero frv.typeOf)))
          else
            decodeFields cdc dec rawMap fopts rest rv
        else
          -- Decode into field rv.
          match dec valueBytes finfo frv fopts with
          | .ret frv none =>
            decodeFields cdc dec rawMap fopts rest (rv.setField field.Index frv)
          | .ret frv (some err) => .ret (rv.setField field.Index frv) (some err)
          | .panic msg => .panic msg
          | .outOfFuel => .outOfFuel

/-- `decodeReflectJSONStruct`, with `dec` the recursive call
`cdc.decodeReflectJSON`. -/
def decodeReflectJSONStruct (cdc : Codec) (dec : Decoder) (bz : Bytes)
    (info : TypeInfo) (rv : Value) (fopts : FieldOptions) : Outcome Value :=
  -- Map all the fields(keys) to their blobs/bytes.
  match cdc.json.UnmarshalRawMap bz with
  | .error err => .ret rv (some err)
  | .ok rawMap => decodeFields cdc dec rawMap fopts info.Fields rv

/-- The case `reflect.Int64, reflect.Int, reflect.Uint64, reflect.Uint` of the
switch of `decodeReflectJSON`: `bz[0]` and `bz[len(bz)-1]` are inspected, which
panics on an empty input; `bz[1 : len(bz)-1]` panics on a single byte. -/
def decodeReflectJSONQuoted (J : Stdlib) (bz : Bytes) (rv : Value)
    (fopts : FieldOptions) : Outcome Value :=
  match bz[0]?, bz[bz.length - 1]? with
  | some first, some last =>
    if first ≠ 34 || last ≠ 34 then .ret rv (some (.quotedIntExpected bz))
    else if bz.length < 2 then .panic "slice bounds out of range [1:0]"
    else invokeStdlibJSONUnmarshal J ((bz.take (bz.length - 1)).drop 1) rv fopts
  | _, _ => .panic "index out of range [0] with length 0"

/-- The part of `decodeReflectJSON` after the pointer loop, on the variable
`rv` the loop ended at; `dec` is the recursive call `cdc.decodeReflectJSON`. -/
def decodeReflectJSONValue (cdc : Codec) (dec : Decoder) (bz : Bytes)
    (info : TypeInfo) (rv : Value) (fopts : FieldOptions) : Outcome Value :=
  -- Handle the most special case, "well known".
  let wk : WellKnownResult :=
    if info.IsJSONWellKnownType then cdc.decodeReflectJSONWellKnown bz info rv fopts
    else { rv := rv, ok := false, err := none }
  if wk.ok || wk.err.isSome then .ret wk.rv wk.err
  else
    let rv := wk.rv
    -- Handle override if a pointer to rv implements UnmarshalAmino.
    if info.IsAminoUnmarshaler then
      -- First, decode repr instance from bytes.
      let rrv := zero info.AminoUnmarshalReprType
      match cdc.getTypeInfoWLock info.AminoUnmarshalReprType with
      | .error err => .ret rv (some err)
      | .ok rinfo =>
        match dec bz rinfo rrv fopts with
        | .ret _ (some err) => .ret rv (some err)
        | .ret rrv none =>
          -- Then, decode from repr instance.
          match cdc.UnmarshalAmino rv rrv with
          | (rv, erri) => .ret rv erri
        | .panic msg => .panic msg
        | .outOfFuel => .outOfFuel
    else
      match info.Typ.kind with
      -- Complex
      | .Interface => decodeReflectJSONInterface cdc dec bz info rv fopts
      | .Array => decodeReflectJSONArray cdc dec bz info rv fopts
      | .Slice => decodeReflectJSONSlice cdc dec bz info rv fopts
      | .Struct => decodeReflectJSONStruct cdc dec bz info rv fopts
      -- Signed, Unsigned
      | .Int64 | .Int | .Uint64 | .Uint =>
        decodeReflectJSONQuoted cdc.json bz rv fopts
      | .Int32 | .Int16 | .Int8 | .Uint32 | .Uint16 | .Uint8 =>
        invokeStdlibJSONUnmarshal cdc.json bz rv fopts
      -- Misc
      | .Float32 | .Float64 =>
        if !fopts.Unsafe then .ret rv (some .floatRequiresUnsafe)
        else invokeStdlibJSONUnmarshal cdc.json bz rv fopts
      | .Bool | .String => invokeStdlibJSONUnmarshal cdc.json bz rv fopts
      -- Default
      | _ => .panic "unsupported type"

/-- `Codec.decodeReflectJSON`.  The first argument bounds the depth of the
recursion; destinations are variables, hence addressable, so the guard
`!rv.CanAddr()` has no counterpart. -/
def decodeReflectJSON (cdc : Codec) : Nat → Decoder
  | 0 => fun _ _ _ _ => .outOfFuel
  | fuel + 1 => fun bz info rv fopts =>
    if info.Typ.kind = .Interface ∧ rv.kind = .Ptr then .panic "should not happen"
    -- Special case for null for either interface, pointer, slice
    else if nullBytes bz then .ret (rv.set (zero rv.typeOf)) none
    else
      -- Dereference-and-construct pointers all the way.
      (decodeReflectJSONValue cdc (decodeReflectJSON cdc fuel) bz info
        rv.derefPtrs fopts).mapSt rv.storePtrs

/-! ## A reference `encoding/json`

The decoder is parametric in `Stdlib`.  To run it on concrete JSON texts the
following instance follows `encoding/json` on the JSON grammar without `\u`
escapes: the whole input is validated first, then the value is stored
according to the type of the target. -/

namespace Json

/-- JSON whitespace. -/
def isSpace (b : Nat) : Bool := b == 32 || b == 9 || b == 13 || b == 10

/-- A decimal digit. -/
def isDigit (b : Nat) : Bool := decide (48 ≤ b) && decide (b ≤ 57)

/-- The input without its leading whitespace. -/
def skipSpace (s : Bytes) : Bytes := s.dropWhile isSpace

/-- The number denoted by a run of decimal digits. -/
def natOfDigits (ds : Bytes) : Nat := ds.foldl (fun acc d => acc * 10 + (d - 48)) 0

/-- The byte an escape sequence `\c` stands for. -/
def unescape (c : Nat) : Option Nat :=
  if c = 34 then some 34 else if c = 92 then some 92 else if c = 47 then some 47
  else if c = 98 then some 8 else if c = 102 then some 12 else if c = 110 then some 10
  else if c = 114 then some 13 else if c = 116 then some 9 else none

/-- A string body, read after its opening quote: the decoded bytes and the
input after the closing quote. -/
def scanString : Bytes → Option (Bytes × Bytes)
  | [] => none
  | b :: rest =>
    if b = 34 then some ([], rest)
    else if b = 92 then
      match rest with
      | [] => none
      | c :: rest1 =>
        match unescape c, scanString rest1 with
        | some d, some (str, r) => some (d :: str, r)
        | _, _ => none
    else if b < 32 then none
    else
      match scanString rest with
      | some (str, r) => some (b :: str, r)
      | none => none

/-- A non-empty run of digits: the digits and the input after them. -/
def scanDigits (s : Bytes) : Option (Bytes × Bytes) :=
  match s.span isDigit with
  | ([], _) => none
  | (ds, r) => some (ds, r)

/-- A number literal split into sign, integer digits, fraction digits and
exponent, with the input after it. -/
structure Number where
  neg : Bool
  intDigits : Bytes
  fracDigits : Bytes
  hasFracOrExp : Bool
  exp : Int
  rest : Bytes

/-- The exponent part of a number literal, read after `e` or `E`: its value
and the input after it. -/
def scanExponent (s : Bytes) : Option (Int × Bytes) :=
  let eneg := s.head? = some 45
  let s1 := if s.head? = some 45 ∨ s.head? = some 43 then s.tail else s
  match scanDigits s1 with
  | none => none
  | some (es, r) =>
    let ev : Int := natOfDigits es
    some (if eneg then -ev else ev, r)

/-- A JSON number literal at the head of the input. -/
def scanNumber (s : Bytes) : Option Number :=
  let neg : Bool := s.head? = some 45
  let s1 := if s.head? = some 45 then s.tail else s
  match scanDigits s1 with
  | none => none
  | some (ds, r) =>
    if ds.length > 1 ∧ ds.head? = some 48 then none
    else
      let frac : Option (Bytes × Bool × Bytes) :=
        if r.head? = some 46 then
          match scanDigits r.tail with
          | none => none
          | some (fs, r2) => some (fs, true, r2)
        else some ([], false, r)
      match frac with
      | none => none
      | some (fs, hasFrac, r2) =>
        if r2.head? = some 101 ∨ r2.head? = some 69 then
          match scanExponent r2.tail with
          | none => none
          | some (ev, r3) => some ⟨neg, ds, fs, true, ev, r3⟩
        else some ⟨neg, ds, fs, hasFrac, 0, r2⟩

/-- The input after the literal `lit`, when the input starts with it. -/
def scanLiteral (lit s : Bytes) : Option Bytes :=
  if lit.isPrefixOf s then some (s.drop lit.length) else none

mutual
/-- The input after one JSON value at the head of `s` (no leading whitespace). -/
def scanValue : Nat → Bytes → Option Bytes
  | 0, _ => none
  | fuel + 1, s =>
    match s with
    | [] => none
    | b :: r =>
      if b = 34 then (scanString r).map Prod.snd
      else if b = 123 then
        match skipSpace r with
        | 125 :: r1 => some r1
        | r1 => (scanMembers fuel r1).map Prod.snd
      else if b = 91 then
        match skipSpace r with
        | 93 :: r1 => some r1
        | r1 => (scanElements fuel r1).map Prod.snd
      else if b = 116 then scanLiteral (ascii "true") s
      else if b = 102 then scanLiteral (ascii "false") s
      else if b = 110 then scanLiteral (ascii "null") s
      else (scanNumber s).map Number.rest
/-- The raw elements of a non-empty array, read after `[` and whitespace, and
the input after the closing bracket. -/
def scanElements : Nat → Bytes → Option (List Bytes × Bytes)
  | 0, _ => none
  | fuel + 1, s =>
    match scanValue fuel s with
    | none => none
    | some r =>
      let raw := s.take (s.length - r.length)
      match skipSpace r with
      | 93 :: r1 => some ([raw], r1)
      | 44 :: r1 =>
        match scanElements fuel (skipSpace r1) with
        | none => none
        | some (raws, r2) => some (raw :: raws, r2)
      | _ => none
/-- The members (key, raw value) of a non-empty object, read after the opening
brace and whitespace, and the input after the closing brace. -/
def scanMembers : Nat → Bytes → Option (List (Bytes × Bytes) × Bytes)
  | 0, _ => none
  | fuel + 1, s =>
    match s with
    | 34 :: r =>
      match scanString r with
      | none => none
      | some (key, r1) =>
        match skipSpace r1 with
        | 58 :: r2 =>
          let v := skipSpace r2
          match scanValue fuel v with
          | none => none
          | some r3 =>
            let raw := v.take (v.length - r3.length)
            match skipSpace r3 with
            | 125 :: r4 => some ([(key, raw)], r4)
            | 44 :: r4 =>
              match scanMembers fuel (skipSpace r4) with
              | none => none
              | some (ms, r5) => some ((key, raw) :: ms, r5)
            | _ => none
        | _ => none
    | _ => none
end

/-- The one JSON value a valid input consists of, without the whitespace
around it; `none` for an invalid input (`checkValid` fails). -/
def document (bz : Bytes) : Option Bytes :=
  let s := skipSpace bz
  match scanValue (s.length + 1) s with
  | none => none
  | some r => if skipSpace r = [] then some (s.take (s.length - r.length)) else none

/-- The error for an input that is not valid JSON. -/
def syntaxError : Error := .json "invalid character or unexpected end of JSON input"

/-- The error for a valid value that does not fit the target. -/
def typeError : Error := .json "json: cannot unmarshal value into Go value"

/-- The raw elements of an array value. -/
def elementsOf (raw : Bytes) : Option (List Bytes) :=
  match raw with
  | 91 :: r =>
    match skipSpace r with
    | 93 :: _ => some []
    | r1 => (scanElements (raw.length + 1) r1).map Prod.fst
  | _ => none

/-- The members of an object value, in input order. -/
def membersOf (raw : Bytes) : Option (List (Bytes × Bytes)) :=
  match raw with
  | 123 :: r =>
    match skipSpace r with
    | 125 :: _ => some []
    | r1 => (scanMembers (raw.length + 1) r1).map Prod.fst
  | _ => none

/-- The six bits a character of the standard base64 alphabet stands for. -/
def sextet (b : Nat) : Option Nat :=
  if 65 ≤ b ∧ b ≤ 90 then some (b - 65)
  else if 97 ≤ b ∧ b ≤ 122 then some (b - 71)
  else if 48 ≤ b ∧ b ≤ 57 then some (b + 4)
  else if b = 43 then some 62
  else if b = 47 then some 63
  else none

/-- Padded standard base64 (`base64.StdEncoding`), on an input without line
breaks. -/
def base64Decode : Bytes → Option Bytes
  | [] => some []
  | a :: b :: c :: d :: rest =>
    match sextet a, sextet b with
    | some x, some y =>
      if c = 61 then
        if d = 61 ∧ rest = [] then some [(x * 4 + y / 16) % 256] else none
      else
        match sextet c with
        | none => none
        | some z =>
          if d = 61 then
            if rest = [] then some [(x * 4 + y / 16) % 256, (y * 16 + z / 4) % 256] else none
          else
            match sextet d, base64Decode rest with
            | some w, some bs =>
              some ((x * 4 + y / 16) % 256 :: (y * 16 + z / 4) % 256 :: (z * 64 + w) % 256 :: bs)
            | _, _ => none
    | _, _ => none
  | _ => none

/-- The values an integer kind can hold (`int` and `uint` are 64 bits wide). -/
def intRange : Basic → Option (Int × Int)
  | .Int8 => some (-128, 127)
  | .Int16 => some (-32768, 32767)
  | .Int32 => some (-2147483648, 2147483647)
  | .Int64 => some (-9223372036854775808, 9223372036854775807)
  | .Int => some (-9223372036854775808, 9223372036854775807)
  | .Uint8 => some (0, 255)
  | .Uint16 => some (0, 65535)
  | .Uint32 => some (0, 4294967295)
  | .Uint64 => some (0, 18446744073709551615)
  | .Uint => some (0, 18446744073709551615)
  | .Uintptr => some (0, 18446744073709551615)
  | _ => none

/-- A number literal stored into an integer of kind `k`: `strconv.ParseInt`
or `ParseUint` of the literal, then the overflow check of the kind. -/
def storeInt (k : Basic) (raw : Bytes) : Option Value :=
  match scanNumber raw, intRange k with
  | some num, some (lo, hi) =>
    if num.hasFracOrExp || !num.rest.isEmpty then none
    else if num.neg && decide (lo = 0) then none
    else
      let n : Int := if num.neg then -(natOfDigits num.intDigits : Int) else natOfDigits num.intDigits
      if lo ≤ n ∧ n ≤ hi then some (.int k n) else none
  | _, _ => none

/-- A number literal stored into a float of kind `k`, as a decimal numeral. -/
def storeFloat (k : Basic) (raw : Bytes) : Option Value :=
  match scanNumber raw with
  | some num =>
    if !num.rest.isEmpty then none
    else
      let m : Int := natOfDigits (num.intDigits ++ num.fracDigits)
      some (.float k (if num.neg then -m else m) (num.exp - num.fracDigits.length))
  | none => none

/-- The elements of an array of numbers stored into bytes. -/
def storeBytes : List Bytes → Option (List Value)
  | [] => some []
  | raw :: raws =>
    match storeInt .Uint8 raw, storeBytes raws with
    | some v, some vs => some (v :: vs)
    | _, _ => none

/-- `json.Unmarshal(bz, p)` on the content `v` of `*p`, for the targets the
decoder uses: booleans, integers, floats, strings and byte slices.  An array
text whose elements do not all fit a byte slice is reported as a type error
with the target left as it was. -/
def Unmarshal (bz : Bytes) (v : Value) : Value × Option Error :=
  match document bz with
  | none => (v, some syntaxError)
  | some raw =>
    match raw with
    | [] => (v, some syntaxError)
    | c :: body =>
      if c = 110 then -- null
        match v with
        | .slice e _ => (.slice e none, none)
        | .iface n _ => (.iface n none, none)
        | .ptr e _ => (.ptr e none, none)
        | _ => (v, none)
      else if c = 116 ∨ c = 102 then -- true, false
        match v with
        | .bool _ => (.bool (decide (c = 116)), none)
        | _ => (v, some typeError)
      else if c = 34 then -- string
        match scanString body, v with
        | some (str, _), .str _ => (.str str, none)
        | some (str, _), .slice e _ =>
          if e.isByte then
            match base64Decode str with
            | some bs => (.slice e (some (bs.map (fun b => Value.int .Uint8 b))), none)
            | none => (v, some (.json "illegal base64 data"))
          else (v, some typeError)
        | _, _ => (v, some typeError)
      else if c = 91 then -- array
        match v with
        | .slice e _ =>
          if e.isByte then
            match (elementsOf raw).bind storeBytes with
            | some vs => (.slice e (some vs), none)
            | none => (v, some typeError)
          else (v, some typeError)
        | _ => (v, some typeError)
      else if c = 123 then (v, some typeError) -- object
      else -- number
        match v with
        | .int k _ =>
          match storeInt k raw with
          | some n => (n, none)
          | none => (v, some typeError)
        | .float k _ _ =>
          match storeFloat k raw with
          | some x => (x, none)
          | none => (v, some typeError)
        | _ => (v, some typeError)

/-- `json.Unmarshal` into a nil `[]json.RawMessage`. -/
def UnmarshalRawSlice (bz : Bytes) : Except Error (List Bytes) :=
  match document bz with
  | none => .error syntaxError
  | some raw =>
    if raw = ascii "null" then .ok []
    else
      match elementsOf raw with
      | some raws => .ok raws
      | none => .error typeError

/-- A map with the entry for `key` set to `val`. -/
def mapInsert (m : List (Bytes × Bytes)) (key val : Bytes) : List (Bytes × Bytes) :=
  (key, val) :: m.filter (fun p => p.1 ≠ key)

/-- `json.Unmarshal` into an empty `map[string]json.RawMessage`: a later
member replaces an earlier one with the same key. -/
def UnmarshalRawMap (bz : Bytes) : Except Error (List (Bytes × Bytes)) :=
  match document bz with
  | none => .error syntaxError
  | some raw =>
    if raw = ascii "null" then .ok []
    else
      match membersOf raw with
      | some ms => .ok (ms.foldl (fun m p => mapInsert m p.1 p.2) [])
      | none => .error typeError

/-- ASCII case folding of a key. -/
def foldKey (key : Bytes) : Bytes :=
  key.map (fun b => if 65 ≤ b ∧ b ≤ 90 then b + 32 else b)

/-- The members of an object stored into an `anyWrapper`, whose fields are
matched by `encoding/json` without regard to letter case. -/
def storeAnyWrapper : List (Bytes × Bytes) → Bytes × Bytes → Option (Bytes × Bytes)
  | [], w => some w
  | (key, raw) :: ms, (typeURL, value) =>
    if foldKey key = ascii "@type" then
      match raw with
      | 34 :: body =>
        match scanString body with
        | some (str, _) => storeAnyWrapper ms (str, value)
        | none => none
      | _ => if raw = ascii "null" then storeAnyWrapper ms (typeURL, value) else none
    else if foldKey key = ascii "value" then storeAnyWrapper ms (typeURL, raw)
    else storeAnyWrapper ms (typeURL, value)

/-- `json.Unmarshal` into a new `anyWrapper`. -/
def UnmarshalAnyWrapper (bz : Bytes) : Except Error (Bytes × Bytes) :=
  match document bz with
  | none => .error syntaxError
  | some raw =>
    if raw = ascii "null" then .ok ([], [])
    else
      match (membersOf raw).bind (fun ms => storeAnyWrapper ms ([], [])) with
      | some w => .ok w
      | none => .error typeError

/-- The decimal digits of `m`, most significant first, in front of `acc`. -/
def natDigitsAux : Nat → Nat → Bytes → Bytes
  | 0, _, acc => acc
  | fuel + 1, m, acc =>
    if m < 10 then (m + 48) :: acc
    else natDigitsAux fuel (m / 10) ((m % 10 + 48) :: acc)

/-- The decimal text of a natural number. -/
def natDigits (m : Nat) : Bytes := natDigitsAux (m + 1) m []

/-- The decimal text of an integer, as `strconv.FormatInt(n, 10)` writes it. -/
def decimalText (n : Int) : Bytes :=
  if n < 0 then 45 :: natDigits n.natAbs else natDigits n.natAbs

/-- The reference `encoding/json`. -/
def std : Stdlib :=
  { Unmarshal := Unmarshal
    UnmarshalRawSlice := UnmarshalRawSlice
    UnmarshalRawMap := UnmarshalRawMap
    UnmarshalAnyWrapper := UnmarshalAnyWrapper }

end Json

/-! ## A reference codec -/

/-- The type with its pointer levels removed, as the descriptor store keys
its descriptors. -/
def RType.derefType : RType → RType
  | .ptr e => e.derefType
  | t => t

/-- A codec over the reference `encoding/json` whose descriptor store hands
out `describe`, whose registry is the given list of type URLs, and whose
types have neither a well-known decoder nor an `UnmarshalAmino` hook.  Its
interface types have no method, so every type implements them. -/
def Codec.reference (describe : RType → Except Error TypeInfo)
    (registry : List (Bytes × TypeInfo)) : Codec :=
  { json := Json.std
    getTypeInfoWLock := describe
    getTypeInfoFromTypeURLRLock := fun typeURL _ =>
      match registry.lookup typeURL with
      | some cinfo => .ok cinfo
      | none => .error (.typeInfo "unrecognized concrete type URL")
    decodeReflectJSONWellKnown := fun _ _ rv _ => { rv := rv, ok := false, err := none }
    UnmarshalAmino := fun rv _ => (rv, none)
    implements := fun _ _ => true }

/-- The descriptor of a type without fields: the type with its pointer levels
removed, and its zero value. -/
def plainInfo (t : RType) : TypeInfo :=
  { Typ := t.derefType, ZeroValue := zero t.derefType }

/-- The reference codec for types without struct fields and without
registered concrete types. -/
def plainCodec : Codec := Codec.reference (fun t => .ok (plainInfo t)) []

/-! ## Descriptors used in the worked examples -/

/-- The call options of a top-level decode, Go's `FieldOptions{}`. -/
def noOptions : FieldOptions := {}

/-- The descriptor of a field named `name` (also its JSON name) of type `t`
at position `index`. -/
def fieldInfo (name : String) (t : RType) (index : Nat) (omitEmpty : Bool)
    (allowUnsafe : Bool) : FieldInfo :=
  { Name := name, Typ := t, Index := index,
    FieldOptions := { JSONName := ascii name, JSONOmitEmpty := omitEmpty,
                      Unsafe := allowUnsafe } }

/-- The descriptor of a struct type named `name` with the given fields. -/
def structInfo (name : String) (fields : List FieldInfo) : TypeInfo :=
  { Typ := .struct name (fields.map FieldInfo.Typ),
    ZeroValue := zero (.struct name (fields.map FieldInfo.Typ)),
    Fields := fields }

/-- The descriptor of `struct { F float64 }` with the field tagged
`amino:"unsafe"`. -/
def unsafeFloatStruct : TypeInfo :=
  structInfo "S" [fieldInfo "F" (.basic .Float64) 0 false true]

/-- The descriptor of `struct { F float64 }` with an untagged field. -/
def plainFloatStruct : TypeInfo :=
  structInfo "S" [fieldInfo "F" (.basic .Float64) 0 false false]

/-- The descriptor of the array type `[n]byte`. -/
def byteArrayInfo (n : Nat) : TypeInfo := plainInfo (.array n (.basic .Uint8))

/-- An array of bytes with the given content. -/
def byteArray (bs : List Nat) : Value :=
  .array (.basic .Uint8) (bs.map (fun b => Value.int .Uint8 b))

/-- The descriptor of `struct { Vanilla int32; Topping int32 }` whose second
field is tagged `json:",omitempty"`. -/
def sundaeInfo : TypeInfo :=
  structInfo "Sundae" [fieldInfo "Vanilla" (.basic .Int32) 0 false false,
                       fieldInfo "Topping" (.basic .Int32) 1 true false]

/-- A value of that struct type. -/
def sundae (vanilla topping : Int) : Value :=
  .struct "Sundae" [.int .Int32 vanilla, .int .Int32 topping]

/-- The descriptor of `type Msg struct { Field int32 }`. -/
def msgInfo : TypeInfo :=
  structInfo "Msg" [fieldInfo "Field" (.basic .Int32) 0 false false]

/-- The descriptor of `int32` registered as a pass-through Any value type. -/
def anyIntInfo : TypeInfo :=
  { Typ := .basic .Int32, ZeroValue := .int .Int32 0, IsJSONAnyValueType := true }

/-- The descriptor of the interface type `I` the examples decode into. -/
def ifaceInfo : TypeInfo := plainInfo (.iface "I")

/-- The reference codec with `Msg` registered under `pkg/Msg` and the
pass-through `int32` under `pkg/Int`. -/
def msgCodec : Codec :=
  Codec.reference (fun t => .ok (plainInfo t))
    [(ascii "pkg/Msg", msgInfo), (ascii "pkg/Int", anyIntInfo)]

/-- The descriptor of `type Celsius struct { Deg int32 }`, whose
`UnmarshalAmino` takes an `int32` representation. -/
def celsiusInfo : TypeInfo :=
  { Typ := .struct "Celsius" [.basic .Int32],
    ZeroValue := .struct "Celsius" [.int .Int32 0],
    IsAminoUnmarshaler := true,
    AminoUnmarshalReprType := .basic .Int32,
    Fields := [fieldInfo "Deg" (.basic .Int32) 0 false false] }

/-- The reference codec with the hook of `Celsius`: `UnmarshalAmino` stores
the representation in `Deg` and rejects a temperature below -273. -/
def celsiusCodec : Codec :=
  { plainCodec with
    UnmarshalAmino := fun rv rrv =>
      match rrv with
      | .int _ n =>
        if n < -273 then (rv, some (.hook "below absolute zero"))
        else (.struct "Celsius" [.int .Int32 n], none)
      | _ => (rv, some (.hook "unexpected representation")) }

/-- The descriptor of `int64` registered as a pass-through Any value type. -/
def anyInt64Info : TypeInfo :=
  { Typ := .basic .Int64, ZeroValue := .int .Int64 0, IsJSONAnyValueType := true }

/-- The reference codec with the pass-through `int64` registered under
`pkg/Int64`. -/
def int64Codec : Codec :=
  Codec.reference (fun t => .ok (plainInfo t)) [(ascii "pkg/Int64", anyInt64Info)]

/-- The descriptor of `type Stamp struct { Sec int32 }`, flagged as a JSON
well-known type. -/
def stampInfo : TypeInfo :=
  { Typ := .struct "Stamp" [.basic .Int32],
    ZeroValue := .struct "Stamp" [.int .Int32 0],
    IsJSONWellKnownType := true,
    Fields := [fieldInfo "Sec" (.basic .Int32) 0 false false] }

/-- The reference codec with a well-known decoder for `Stamp`: the text
`"epoch"` is handled (the stamp 0), the text `"never"` is an error, and every
other text is declined with the destination left as it is. -/
def stampCodec : Codec :=
  { plainCodec with
    decodeReflectJSONWellKnown := fun bz _ rv _ =>
      if bz = ascii "\"epoch\"" then
        { rv := .struct "Stamp" [.int .Int32 0], ok := true, err := none }
      else if bz = ascii "\"never\"" then
        { rv := rv, ok := false, err := some (.hook "no such time") }
      else { rv := rv, ok := false, err := none } }

/-- The descriptor with its well-known flag cleared. -/
def TypeInfo.clearWellKnown (info : TypeInfo) : TypeInfo :=
  { info with IsJSONWellKnownType := false }

/-! ## The binary wire format -/

namespace Binary

/-- The errors of the binary decoder named by the spec, and the error for a
wire input that ends early or is not of the expected wire type. -/
inductive BinError
  | overflow
  | malformed
  deriving DecidableEq, Repr

/-- Modelled from the spec: `amino.EncodeUvarint` is not among the sources; the
"varint" of the wire format is the base-128 encoding of proto3, least
significant group first, every byte but the last with its high bit set.  The
first argument bounds the number of bytes. -/
def encodeUvarint : Nat → Nat → Bytes
  | 0, _ => []
  | fuel + 1, v =>
    if v < 128 then [v]
    else (v % 128 + 128) :: encodeUvarint fuel (v / 128)

/-- Modelled from the spec: the uvarint of a 64-bit value, at most ten bytes. -/
def putUvarint (v : Nat) : Bytes := encodeUvarint 10 v

/-- Modelled from the spec: the binary decoder is not among the sources; the
reader of a "varint", which takes at most `fuel` bytes: the value and the
input after it. -/
def decodeUvarint : Nat → Bytes → Option (Nat × Bytes)
  | 0, _ => none
  | _ + 1, [] => none
  | fuel + 1, b :: rest =>
    if b < 128 then some (b, rest)
    else
      match decodeUvarint fuel rest with
      | some (v, r) => some (b - 128 + 128 * v, r)
      | none => none

/-- Modelled from the spec: the reader of a varint of at most 64 bits. -/
def readUvarint (bz : Bytes) : Option (Nat × Bytes) :=
  match decodeUvarint 10 bz with
  | some (v, r) => if v < 2 ^ 64 then some (v, r) else none
  | none => none

/-- Modelled from the spec: the integer a 64-bit wire value stands for in a
field whose kind has the lower bound `lo`: "zig-zag not used", so a signed kind
reads the value as 64-bit two's complement and an unsigned kind reads it as it
is. -/
def wireValue (lo : Int) (u : Nat) : Int :=
  if lo < 0 ∧ 2 ^ 63 ≤ u then (u : Int) - 2 ^ 64 else u

/-- Modelled from the spec: the binary decoding of a varint into an integer
field of kind `k`: "decoding a value into a narrower integer field than the
wire value requires must fail with `Overflow` rather than silently truncate".
The result is the field's value and the input after the varint. -/
def decodeVarintField (k : Basic) (bz : Bytes) : Except BinError (Int × Bytes) :=
  match readUvarint bz, Json.intRange k with
  | some (u, rest), some (lo, hi) =>
    if lo ≤ wireValue lo u ∧ wireValue lo u ≤ hi then .ok (wireValue lo u, rest)
    else .error .overflow
  | _, _ => .error .malformed

/-- Modelled from the spec: a field of a struct on the binary path, its field
number and its integer kind. -/
structure BinField where
  num : Nat
  kind : Basic

/-- Modelled from the spec: an unknown field is skipped "using the
wire-type-implied length rule": wire type 0 is a varint, 1 is eight bytes, 2
is length-delimited, 5 is four bytes. -/
def skipField (wireType : Nat) (bz : Bytes) : Option Bytes :=
  if wireType = 0 then (readUvarint bz).map Prod.snd
  else if wireType = 1 then (if 8 ≤ bz.length then some (bz.drop 8) else none)
  else if wireType = 2 then
    match readUvarint bz with
    | some (n, r) => if n ≤ r.length then some (r.drop n) else none
    | none => none
  else if wireType = 5 then (if 4 ≤ bz.length then some (bz.drop 4) else none)
  else none

/-- Modelled from the spec: trailing fields with unknown numbers are skipped,
"not an error". -/
def skipUnknown : Nat → Bytes → Except BinError Unit
  | _, [] => .ok ()
  | 0, _ :: _ => .error .malformed
  | fuel + 1, bz =>
    match readUvarint bz with
    | none => .error .malformed
    | some (tag, r) =>
      match skipField (tag % 8) r with
      | none => .error .malformed
      | some r1 => skipUnknown fuel r1

/-- Modelled from the spec: the binary struct decoder is not among the
sources; "fields are encoded in declared order, each prefixed by a tag"
which is the varint of `(fieldNumber << 3) | wireType`; a field that is not on
the wire is "the type's zero value"; an integer field has wire type 0.  The
result lists the values of the declared fields. -/
def decodeStruct : List BinField → Bytes → Except BinError (List Int)
  | [], bz =>
    match skipUnknown bz.length bz with
    | .ok _ => .ok []
    | .error e => .error e
  | f :: fs, bz =>
    match readUvarint bz with
    | none =>
      if bz = [] then
        match decodeStruct fs bz with
        | .ok vs => .ok (0 :: vs)
        | .error e => .error e
      else .error .malformed
    | some (tag, r) =>
      if tag / 8 = f.num then
        if tag % 8 = 0 then
          match decodeVarintField f.kind r with
          | .error e => .error e
          | .ok (v, r1) =>
            match decodeStruct fs r1 with
            | .ok vs => .ok (v :: vs)
            | .error e => .error e
        else .error .malformed
      else
        match decodeStruct fs bz with
        | .ok vs => .ok (0 :: vs)
        | .error e => .error e

/-- The fields of the test's `p3.TestInts`: `Int32 int32` with number 1 and
`Int64 int64` with number 2. -/
def testInts : List BinField := [{ num := 1, kind := .Int32 }, { num := 2, kind := .Int64 }]

end Binary

/-! ## Basic facts about values -/

theorem Value.set_zero (rv : Value) : rv.set (zero rv.typeOf) = zero rv.typeOf := by
  cases rv <;> simp [Value.set, Value.typeOf, zero]

theorem Basic.kind_ne_ptr (b : Basic) : b.kind ≠ Kind.Ptr := by
  cases b <;> simp [Basic.kind]

theorem Value.derefPtrs_of_not_ptr (rv : Value) (h : rv.kind ≠ Kind.Ptr) :
    rv.derefPtrs = rv := by
  cases rv <;> simp_all [Value.derefPtrs, Value.kind, Value.typeOf, RType.kind]

theorem Value.storePtrs_of_not_ptr (rv x : Value) (h : rv.kind ≠ Kind.Ptr) :
    rv.storePtrs x = x := by
  cases rv <;> simp_all [Value.storePtrs, Value.kind, Value.typeOf, RType.kind]

theorem Outcome.mapSt_id_of {σ : Type} (f : σ → σ) (h : ∀ x, f x = x) (o : Outcome σ) :
    o.mapSt f = o := by
  cases o <;> simp [Outcome.mapSt, h]

/-- Below a destination that is not a pointer, `decodeReflectJSON` on an input
other than `null` is the part after the pointer loop. -/
theorem decodeReflectJSON_of_not_ptr (cdc : Codec) (fuel : Nat) (bz : Bytes)
    (info : TypeInfo) (rv : Value) (fopts : FieldOptions)
    (hrv : rv.kind ≠ Kind.Ptr) (hnull : bz ≠ ascii "null") :
    decodeReflectJSON cdc (fuel + 1) bz info rv fopts
      = decodeReflectJSONValue cdc (decodeReflectJSON cdc fuel) bz info rv fopts := by
  have h1 : ¬ (info.Typ.kind = Kind.Interface ∧ rv.kind = Kind.Ptr) := fun h => hrv h.2
  have h2 : nullBytes bz = false := by simp [nullBytes, hnull]
  simp only [decodeReflectJSON, h1, h2, if_false, Bool.false_eq_true]
  rw [Value.derefPtrs_of_not_ptr rv hrv]
  exact Outcome.mapSt_id_of _ (fun x => Value.storePtrs_of_not_ptr rv x hrv) _

/-- Without well-known flag and custom hook, the part after the pointer loop
is the switch on the descriptor's kind: the 64-bit integer kinds. -/
theorem decodeReflectJSONValue_is64 (cdc : Codec) (dec : Decoder) (bz : Bytes)
    (info : TypeInfo) (rv : Value) (fopts : FieldOptions)
    (hkind : is64 info.Typ.kind = true)
    (hwk : info.IsJSONWellKnownType = false) (hum : info.IsAminoUnmarshaler = false) :
    decodeReflectJSONValue cdc dec bz info rv fopts
      = decodeReflectJSONQuoted cdc.json bz rv fopts := by
  simp only [is64, Bool.or_eq_true, decide_eq_true_eq] at hkind
  rcases hkind with ((hk | hk) | hk) | hk <;>
    simp [decodeReflectJSONValue, hwk, hum, hk]

/-- The switch on the descriptor's kind: the narrower integer kinds. -/
theorem decodeReflectJSONValue_narrow (cdc : Codec) (dec : Decoder) (bz : Bytes)
    (info : TypeInfo) (rv : Value) (fopts : FieldOptions)
    (hkind : isNarrowInt info.Typ.kind = true)
    (hwk : info.IsJSONWellKnownType = false) (hum : info.IsAminoUnmarshaler = false) :
    decodeReflectJSONValue cdc dec bz info rv fopts
      = invokeStdlibJSONUnmarshal cdc.json bz rv fopts := by
  simp only [isNarrowInt, Bool.or_eq_true, decide_eq_true_eq] at hkind
  rcases hkind with ((((hk | hk) | hk) | hk) | hk) | hk <;>
    simp [decodeReflectJSONValue, hwk, hum, hk]

/-- The switch on the descriptor's kind: the floating-point kinds. -/
theorem decodeReflectJSONValue_float (cdc : Codec) (dec : Decoder) (bz : Bytes)
    (info : TypeInfo) (rv : Value) (fopts : FieldOptions)
    (hkind : isFloat info.Typ.kind = true)
    (hwk : info.IsJSONWellKnownType = false) (hum : info.IsAminoUnmarshaler = false) :
    decodeReflectJSONValue cdc dec bz info rv fopts
      = if fopts.Unsafe then invokeStdlibJSONUnmarshal cdc.json bz rv fopts
        else Outcome.ret rv (some Error.floatRequiresUnsafe) := by
  simp only [isFloat, Bool.or_eq_true, decide_eq_true_eq] at hkind
  rcases hkind with hk | hk <;>
    cases hu : fopts.Unsafe <;> simp [decodeReflectJSONValue, hwk, hum, hk, hu]

/-! ## The field loop of the struct decoder -/

theorem Value.field?_setField_ne (rv : Value) (i j : Nat) (x : Value) (h : i ≠ j) :
    (rv.setField i x).field? j = rv.field? j := by
  cases rv <;> simp [Value.setField, Value.field?, List.getElem?_set_ne h]

theorem Value.field?_setField_self (rv : Value) (i : Nat) (x frv : Value)
    (h : rv.field? i = some frv) : (rv.setField i x).field? i = some x := by
  cases rv <;> simp_all [Value.setField, Value.field?]
  rename_i fs
  have hlt : i < fs.length := by
    by_contra hge
    rw [List.getElem?_eq_none (Nat.le_of_not_lt hge)] at h
    exact Option.noConfusion h
  exact List.getElem?_set_self hlt

/-- A map without the key gives nil bytes. -/
theorem rawMapGet_of_no_key (rawMap : List (Bytes × Bytes)) (key : Bytes)
    (h : ∀ p ∈ rawMap, p.1 ≠ key) : rawMapGet rawMap key = [] := by
  have : rawMap.lookup key = none := by
    rw [List.lookup_eq_none_iff]
    intro p hp
    exact bne_iff_ne.mpr (Ne.symm (h p hp))
  simp [rawMapGet, this]

/-- Frame of the field loop: a position that every visited field either does
not name, or names while being absent from the object and omit-empty, holds
after the loop what it held before. -/
theorem decodeFields_frame (cdc : Codec) (dec : Decoder) (rawMap : List (Bytes × Bytes))
    (fopts : FieldOptions) (i : Nat) :
    ∀ (fields : List FieldInfo) (rv rv1 : Value) (err : Option Error),
      (∀ g ∈ fields, g.Index ≠ i
          ∨ (rawMapGet rawMap g.JSONName = [] ∧ g.JSONOmitEmpty = true)) →
      decodeFields cdc dec rawMap fopts fields rv = Outcome.ret rv1 err →
      rv1.field? i = rv.field? i := by
  intro fields
  induction fields with
  | nil =>
    intro rv rv1 err _ h
    simp only [decodeFields, Outcome.ret.injEq] at h
    rw [h.1]
  | cons g rest ih =>
    intro rv rv1 err hall h
    have hrest : ∀ g1 ∈ rest, g1.Index ≠ i
        ∨ (rawMapGet rawMap g1.JSONName = [] ∧ g1.JSONOmitEmpty = true) :=
      fun g1 hg1 => hall g1 (List.mem_cons_of_mem g hg1)
    have hg := hall g (List.mem_cons_self g rest)
    simp only [decodeFields] at h
    cases hfrv : rv.field? g.Index with
    | none => simp [hfrv] at h
    | some frv =>
      simp only [hfrv] at h
      cases hti : cdc.getTypeInfoWLock g.Typ with
      | error e =>
        simp only [hti, Outcome.ret.injEq] at h
        rw [h.1]
      | ok finfo =>
        simp only [hti] at h
        by_cases hlen : (rawMapGet rawMap g.JSONName).length = 0
        · simp only [hlen, if_true] at h
          cases hoe : g.JSONOmitEmpty with
          | true =>
            simp only [hoe, Bool.not_true, Bool.false_eq_true, if_false] at h
            exact ih rv rv1 err hrest h
          | false =>
            simp only [hoe, Bool.not_false, if_true] at h
            have hne : g.Index ≠ i := by
              rcases hg with hne | ⟨_, ho⟩
              · exact hne
              · rw [hoe] at ho; exact Bool.noConfusion ho
            rw [ih _ rv1 err hrest h, Value.field?_setField_ne _ _ _ _ hne]
        · have hne : g.Index ≠ i := by
            rcases hg with hne | ⟨hemp, _⟩
            · exact hne
            · rw [hemp] at hlen; exact absurd rfl hlen
          simp only [hlen, if_false] at h
          cases hdec : dec (rawMapGet rawMap g.JSONName) finfo frv fopts with
          | ret frv1 e1 =>
            cases e1 with
            | none =>
              simp only [hdec] at h
              rw [ih _ rv1 err hrest h, Value.field?_setField_ne _ _ _ _ hne]
            | some e =>
              simp only [hdec, Outcome.ret.injEq] at h
              rw [← h.1, Value.field?_setField_ne _ _ _ _ hne]
          | panic msg => simp [hdec] at h
          | outOfFuel => simp [hdec] at h

/-- In a descriptor whose field indices are distinct, every field other than
`f` has an index other than the index of `f`. -/
theorem index_ne_of_nodup (f : FieldInfo) :
    ∀ (fields : List FieldInfo), (fields.map FieldInfo.Index).Nodup → f ∈ fields →
      ∀ g ∈ fields, g.Index = f.Index → g = f := by
  intro fields hnd hf g hg hidx
  exact List.inj_on_of_nodup_map hnd hg hf hidx

/-- The field loop zeroes an absent field that is not omit-empty: after a
successful loop over fields with distinct indices, the position of such a
field holds the zero value of the type of what it held before. -/
theorem decodeFields_zero (cdc : Codec) (dec : Decoder) (rawMap : List (Bytes × Bytes))
    (fopts : FieldOptions) (f : FieldInfo)
    (habs : rawMapGet rawMap f.JSONName = []) (hoe : f.JSONOmitEmpty = false) :
    ∀ (fields : List FieldInfo) (rv rv1 : Value),
      f ∈ fields → (fields.map FieldInfo.Index).Nodup →
      decodeFields cdc dec rawMap fopts fields rv = Outcome.ret rv1 none →
      ∃ frv, rv.field? f.Index = some frv ∧ rv1.field? f.Index = some (zero frv.typeOf) := by
  intro fields
  induction fields with
  | nil => intro rv rv1 hf; exact absurd hf (List.not_mem_nil f)
  | cons g rest ih =>
    intro rv rv1 hf hnd h
    have hnd' : (g.Index :: rest.map FieldInfo.Index).Nodup := by simpa using hnd
    have hrestnd : (rest.map FieldInfo.Index).Nodup := (List.nodup_cons.mp hnd').2
    have hgnotin : g.Index ∉ rest.map FieldInfo.Index := (List.nodup_cons.mp hnd').1
    simp only [decodeFields] at h
    cases hfrv : rv.field? g.Index with
    | none => simp [hfrv] at h
    | some frv =>
      simp only [hfrv] at h
      cases hti : cdc.getTypeInfoWLock g.Typ with
      | error e => simp [hti] at h
      | ok finfo =>
        simp only [hti] at h
        rcases List.mem_cons.mp hf with hfg | hfrest
        · -- the visited field is `f`
          subst hfg
          have hlen : (rawMapGet rawMap f.JSONName).length = 0 := by rw [habs]; rfl
          simp only [hlen, if_true, hoe, Bool.not_false] at h
          have hframe := decodeFields_frame cdc dec rawMap fopts f.Index rest _ rv1 none
            (fun g1 hg1 => Or.inl (fun e => hgnotin (by
              rw [← e]; exact List.mem_map_of_mem FieldInfo.Index hg1))) h
          refine ⟨frv, hfrv, ?_⟩
          rw [hframe, Value.field?_setField_self _ _ _ frv hfrv, Value.set_zero]
        · -- `f` is visited later
          have hne : g.Index ≠ f.Index := fun e => hgnotin (by
            rw [e]; exact List.mem_map_of_mem FieldInfo.Index hfrest)
          by_cases hlen : (rawMapGet rawMap g.JSONName).length = 0
          · simp only [hlen, if_true] at h
            cases hgoe : g.JSONOmitEmpty with
            | true =>
              simp only [hgoe, Bool.not_true, Bool.false_eq_true, if_false] at h
              exact ih rv rv1 hfrest hrestnd h
            | false =>
              simp only [hgoe, Bool.not_false, if_true] at h
              obtain ⟨frv1, h1, h2⟩ := ih _ rv1 hfrest hrestnd h
              rw [Value.field?_setField_ne _ _ _ _ hne] at h1
              exact ⟨frv1, h1, h2⟩
          · simp only [hlen, if_false] at h
            cases hdec : dec (rawMapGet rawMap g.JSONName) finfo frv fopts with
            | ret frv1 e1 =>
              cases e1 with
              | none =>
                simp only [hdec] at h
                obtain ⟨frv2, h1, h2⟩ := ih _ rv1 hfrest hrestnd h
                rw [Value.field?_setField_ne _ _ _ _ hne] at h1
                exact ⟨frv2, h1, h2⟩
              | some e => simp [hdec] at h
            | panic msg => simp [hdec] at h
            | outOfFuel => simp [hdec] at h

/-- The field loop decodes a present field: after a successful loop over
fields with distinct indices, the position of a field whose JSON name has
bytes in the object holds what the recursive decoder left, called on those
bytes with the field's descriptor and the content the field had before. -/
theorem decodeFields_present (cdc : Codec) (dec : Decoder) (rawMap : List (Bytes × Bytes))
    (fopts : FieldOptions) (f : FieldInfo) (finfo : TypeInfo)
    (hfi : cdc.getTypeInfoWLock f.Typ = .ok finfo)
    (hpres : (rawMapGet rawMap f.JSONName).length ≠ 0) :
    ∀ (fields : List FieldInfo) (rv rv1 : Value),
      f ∈ fields → (fields.map FieldInfo.Index).Nodup →
      decodeFields cdc dec rawMap fopts fields rv = Outcome.ret rv1 none →
      ∃ frv frv1, rv.field? f.Index = some frv
        ∧ dec (rawMapGet rawMap f.JSONName) finfo frv fopts = Outcome.ret frv1 none
        ∧ rv1.field? f.Index = some frv1 := by
  intro fields
  induction fields with
  | nil => intro rv rv1 hf; exact absurd hf (List.not_mem_nil f)
  | cons g rest ih =>
    intro rv rv1 hf hnd h
    have hnd' : (g.Index :: rest.map FieldInfo.Index).Nodup := by simpa using hnd
    have hrestnd : (rest.map FieldInfo.Index).Nodup := (List.nodup_cons.mp hnd').2
    have hgnotin : g.Index ∉ rest.map FieldInfo.Index := (List.nodup_cons.mp hnd').1
    simp only [decodeFields] at h
    cases hfrv : rv.field? g.Index with
    | none => simp [hfrv] at h
    | some frv =>
      simp only [hfrv] at h
      cases hti : cdc.getTypeInfoWLock g.Typ with
      | error e => simp [hti] at h
      | ok ginfo =>
        simp only [hti] at h
        rcases List.mem_cons.mp hf with hfg | hfrest
        · -- the visited field is `f`
          subst hfg
          have hgi : ginfo = finfo := by
            rw [hfi] at hti
            exact (Except.ok.inj hti).symm
          subst hgi
          simp only [hpres, if_false] at h
          cases hdec : dec (rawMapGet rawMap f.JSONName) ginfo frv fopts with
          | ret frv1 e1 =>
            cases e1 with
            | none =>
              simp only [hdec] at h
              have hframe := decodeFields_frame cdc dec rawMap fopts f.Index rest _ rv1 none
                (fun g1 hg1 => Or.inl (fun e => hgnotin (by
                  rw [← e]; exact List.mem_map_of_mem FieldInfo.Index hg1))) h
              refine ⟨frv, frv1, hfrv, hdec, ?_⟩
              rw [hframe, Value.field?_setField_self _ _ _ frv hfrv]
            | some e => simp [hdec] at h
          | panic msg => simp [hdec] at h
          | outOfFuel => simp [hdec] at h
        · -- `f` is visited later
          have hne : g.Index ≠ f.Index := fun e => hgnotin (by
            rw [e]; exact List.mem_map_of_mem FieldInfo.Index hfrest)
          by_cases hlen : (rawMapGet rawMap g.JSONName).length = 0
          · simp only [hlen, if_true] at h
            cases hgoe : g.JSONOmitEmpty with
            | true =>
              simp only [hgoe, Bool.not_true, Bool.false_eq_true, if_false] at h
              exact ih rv rv1 hfrest hrestnd h
            | false =>
              simp only [hgoe, Bool.not_false, if_true] at h
              obtain ⟨frv1, frv2, h1, h2, h3⟩ := ih _ rv1 hfrest hrestnd h
              rw [Value.field?_setField_ne _ _ _ _ hne] at h1
              exact ⟨frv1, frv2, h1, h2, h3⟩
          · simp only [hlen, if_false] at h
            cases hdec : dec (rawMapGet rawMap g.JSONName) ginfo frv fopts with
            | ret frv1 e1 =>
              cases e1 with
              | none =>
                simp only [hdec] at h
                obtain ⟨frv2, frv3, h1, h2, h3⟩ := ih _ rv1 hfrest hrestnd h
                rw [Value.field?_setField_ne _ _ _ _ hne] at h1
                exact ⟨frv2, frv3, h1, h2, h3⟩
              | some e => simp [hdec] at h
            | panic msg => simp [hdec] at h
            | outOfFuel => simp [hdec] at h

/-- In a map, whose keys are distinct, the look-up of the key of a member gives
the value of that member. -/
theorem rawMapGet_of_member (key v : Bytes) :
    ∀ (rawMap : List (Bytes × Bytes)), (rawMap.map Prod.fst).Nodup →
      (key, v) ∈ rawMap → rawMapGet rawMap key = v := by
  intro rawMap
  induction rawMap with
  | nil => intro _ h; exact absurd h (List.not_mem_nil _)
  | cons p rest ih =>
    intro hnd hmem
    obtain ⟨a, b⟩ := p
    have hnd' : (a :: rest.map Prod.fst).Nodup := by simpa using hnd
    rcases List.mem_cons.mp hmem with heq | hrest
    · have ha : key = a := (Prod.mk.inj heq).1
      have hb : v = b := (Prod.mk.inj heq).2
      subst ha
      subst hb
      simp [rawMapGet, List.lookup_cons]
    · have hne : key ≠ a := by
        intro e
        subst e
        exact (List.nodup_cons.mp hnd').1 (List.mem_map_of_mem Prod.fst hrest)
      have hbeq : (key == a) = false := by simpa using hne
      have hrec := ih (List.nodup_cons.mp hnd').2 hrest
      simp only [rawMapGet, List.lookup_cons, hbeq] at hrec ⊢
      exact hrec

/-- The field loop reads the object only through the look-ups of the fields'
JSON names. -/
theorem decodeFields_congr (cdc : Codec) (dec : Decoder) (fopts : FieldOptions)
    (m m1 : List (Bytes × Bytes)) :
    ∀ (fields : List FieldInfo) (rv : Value),
      (∀ g ∈ fields, rawMapGet m g.JSONName = rawMapGet m1 g.JSONName) →
      decodeFields cdc dec m fopts fields rv = decodeFields cdc dec m1 fopts fields rv := by
  intro fields
  induction fields with
  | nil => intro rv _; rfl
  | cons g rest ih =>
    intro rv hall
    have ih1 : ∀ rv, decodeFields cdc dec m fopts rest rv
        = decodeFields cdc dec m1 fopts rest rv :=
      fun rv => ih rv (fun g1 hg1 => hall g1 (List.mem_cons_of_mem g hg1))
    simp only [decodeFields, hall g (List.mem_cons_self g rest), ih1]

/-- Erasing members whose key is not `key` does not change the look-up of `key`. -/
theorem lookup_filter_of_keep (keep : Bytes × Bytes → Bool) (key : Bytes)
    (hkeep : ∀ v, keep (key, v) = true) :
    ∀ (m : List (Bytes × Bytes)), (m.filter keep).lookup key = m.lookup key := by
  intro m
  induction m with
  | nil => rfl
  | cons p t ih =>
    obtain ⟨a, b⟩ := p
    by_cases hka : key = a
    · subst hka
      simp [List.filter_cons, hkeep b]
    · have hbeq : (key == a) = false := by simpa using hka
      cases hk : keep (a, b) with
      | true => simp [List.filter_cons, hk, List.lookup_cons, hbeq, ih]
      | false => simp [List.filter_cons, hk, List.lookup_cons, hbeq, ih]

/-! ## Decimal texts under the reference `encoding/json` -/

namespace Json

theorem foldl_digits (ds : Bytes) : ∀ (a : Nat),
    ds.foldl (fun acc d => acc * 10 + (d - 48)) a
      = a * 10 ^ ds.length + ds.foldl (fun acc d => acc * 10 + (d - 48)) 0 := by
  induction ds with
  | nil => intro a; simp
  | cons d t ih =>
    intro a
    simp only [List.foldl_cons, List.length_cons]
    rw [ih (a * 10 + (d - 48)), ih (0 * 10 + (d - 48))]
    ring

theorem natOfDigits_natDigitsAux : ∀ (fuel m : Nat) (acc : Bytes), m < fuel →
    natOfDigits (natDigitsAux fuel m acc) = m * 10 ^ acc.length + natOfDigits acc := by
  intro fuel
  induction fuel with
  | zero => intro m acc h; omega
  | succ fuel ih =>
    intro m acc h
    by_cases hm : m < 10
    · simp only [natDigitsAux, hm, if_true, natOfDigits, List.foldl_cons]
      rw [foldl_digits acc (0 * 10 + (m + 48 - 48))]
      simp
    · simp only [natDigitsAux, hm, if_false]
      rw [ih (m / 10) _ (by omega)]
      simp only [natOfDigits, List.foldl_cons, List.length_cons]
      rw [foldl_digits acc (0 * 10 + (m % 10 + 48 - 48))]
      have hdm := Nat.div_add_mod m 10
      simp only [Nat.zero_mul, Nat.zero_add, Nat.add_sub_cancel]
      have hsplit : m * 10 ^ acc.length = (10 * (m / 10) + m % 10) * 10 ^ acc.length := by
        rw [hdm]
      rw [hsplit, pow_succ]
      ring

theorem natOfDigits_natDigits (m : Nat) : natOfDigits (natDigits m) = m := by
  rw [natDigits, natOfDigits_natDigitsAux (m + 1) m [] (by omega)]
  simp [natOfDigits]

theorem isDigit_natDigitsAux : ∀ (fuel m : Nat) (acc : Bytes), m < fuel →
    (∀ b ∈ acc, isDigit b = true) → ∀ b ∈ natDigitsAux fuel m acc, isDigit b = true := by
  intro fuel
  induction fuel with
  | zero => intro m acc h; omega
  | succ fuel ih =>
    intro m acc h hacc
    by_cases hm : m < 10
    · simp only [natDigitsAux, hm, if_true]
      intro b hb
      rcases List.mem_cons.mp hb with rfl | hb
      · simp [isDigit]; omega
      · exact hacc b hb
    · simp only [natDigitsAux, hm, if_false]
      apply ih (m / 10) _ (by omega)
      intro b hb
      rcases List.mem_cons.mp hb with rfl | hb
      · simp [isDigit]; omega
      · exact hacc b hb

/-- The text starts with a digit, and with the digit 0 only for the number 0. -/
theorem head_natDigitsAux : ∀ (fuel m : Nat) (acc : Bytes), m < fuel →
    ∃ c body, natDigitsAux fuel m acc = c :: body ∧ isDigit c = true
      ∧ (c = 48 → m = 0 ∧ body = acc) := by
  intro fuel
  induction fuel with
  | zero => intro m acc h; omega
  | succ fuel ih =>
    intro m acc h
    by_cases hm : m < 10
    · refine ⟨m + 48, acc, by simp [natDigitsAux, hm], by simp [isDigit]; omega, ?_⟩
      intro h48
      exact ⟨by omega, rfl⟩
    · simp only [natDigitsAux, hm, if_false]
      obtain ⟨c, body, h1, h2, h3⟩ := ih (m / 10) ((m % 10 + 48) :: acc) (by omega)
      refine ⟨c, body, h1, h2, ?_⟩
      intro h48
      have := (h3 h48).1
      omega

theorem scanDigits_all (ds : Bytes) (hne : ds ≠ [])
    (hall : ∀ b ∈ ds, isDigit b = true) : scanDigits ds = some (ds, []) := by
  have h1 : ds.takeWhile isDigit = ds := List.takeWhile_eq_self_iff.mpr hall
  have h2 : ds.dropWhile isDigit = [] := List.dropWhile_eq_nil_iff.mpr hall
  rw [scanDigits, List.span_eq_take_drop, h1, h2]
  cases ds with
  | nil => exact absurd rfl hne
  | cons c t => rfl

/-- The reference scanner reads the decimal text of a natural number, with or
without a minus sign in front, as the integer literal with those digits. -/
theorem scanNumber_natDigits (m : Nat) (neg : Bool) :
    scanNumber (if neg then 45 :: natDigits m else natDigits m)
      = some ⟨neg, natDigits m, [], false, 0, []⟩ := by
  obtain ⟨c, body, hcb, hdig, h48⟩ := head_natDigitsAux (m + 1) m [] (by omega)
  have hall : ∀ b ∈ natDigits m, isDigit b = true :=
    isDigit_natDigitsAux (m + 1) m [] (by omega) (by simp)
  have hcb' : natDigits m = c :: body := hcb
  have hscan := scanDigits_all (natDigits m) (by rw [hcb']; simp) hall
  have hc45 : c ≠ 45 := by
    intro h; rw [h] at hdig; exact absurd hdig (by decide)
  have hlead : ¬ ((natDigits m).length > 1 ∧ (natDigits m).head? = some 48) := by
    rintro ⟨hlen, hhead⟩
    rw [hcb'] at hhead hlen
    have hc : c = 48 := by simpa using hhead
    have hb := (h48 hc).2
    rw [hb] at hlen
    simp at hlen
  cases neg with
  | true =>
    simp only [scanNumber, if_true, List.head?_cons, List.tail_cons, hscan, hlead,
      if_false, List.head?_nil]
    simp
  | false =>
    have hhead : (natDigits m).head? ≠ some 45 := by
      rw [hcb']; simpa using hc45
    simp only [scanNumber, Bool.false_eq_true, if_false, hhead, hscan, hlead, List.head?_nil]
    simp

/-- The decimal text of `n` is the text of `|n|` behind a minus sign for a
negative `n`. -/
theorem decimalText_eq (n : Int) :
    decimalText n = if decide (n < 0) then 45 :: natDigits n.natAbs else natDigits n.natAbs := by
  by_cases h : n < 0 <;> simp [decimalText, h]

/-- The first byte of a decimal text is a minus sign or a digit. -/
theorem decimalText_head (n : Int) :
    ∃ c body, decimalText n = c :: body ∧ (c = 45 ∨ isDigit c = true) := by
  obtain ⟨c, body, hcb, hdig, _⟩ := head_natDigitsAux (n.natAbs + 1) n.natAbs [] (by omega)
  have hcb' : natDigits n.natAbs = c :: body := hcb
  by_cases h : n < 0
  · exact ⟨45, natDigits n.natAbs, by simp [decimalText, h], Or.inl rfl⟩
  · exact ⟨c, body, by simp [decimalText, h, hcb'], Or.inr hdig⟩

/-- A text that starts with a minus sign or a digit and that the scanner reads
to its end as a number is a valid document, namely itself. -/
theorem document_number (c : Nat) (body : Bytes) (num : Number)
    (hc : c = 45 ∨ isDigit c = true)
    (hnum : scanNumber (c :: body) = some num) (hrest : num.rest = []) :
    document (c :: body) = some (c :: body) := by
  have hsp : isSpace c = false := by
    rcases hc with rfl | h
    · decide
    · simp only [isDigit, Bool.and_eq_true, decide_eq_true_eq] at h
      simp [isSpace]; omega
  have hne : ∀ x, x = 34 ∨ x = 123 ∨ x = 91 ∨ x = 116 ∨ x = 102 ∨ x = 110 → c ≠ x := by
    intro x hx
    rcases hc with rfl | h
    · omega
    · simp only [isDigit, Bool.and_eq_true, decide_eq_true_eq] at h
      omega
  have hskip : skipSpace (c :: body) = c :: body := by
    simp [skipSpace, List.dropWhile_cons, hsp]
  simp only [document, hskip, scanValue, hne 34 (by simp), hne 123 (by simp),
    hne 91 (by simp), hne 116 (by simp), hne 102 (by simp), hne 110 (by simp), if_false,
    hnum, Option.map_some', hrest]
  simp [skipSpace]

/-- The reference `json.Unmarshal` stores the decimal text of an integer that
fits the kind of an integer variable into it. -/
theorem Unmarshal_decimalText (k : Basic) (v n lo hi : Int)
    (hrange : intRange k = some (lo, hi)) (hlo : lo ≤ n) (hhi : n ≤ hi) :
    Unmarshal (decimalText n) (.int k v) = (.int k n, none) := by
  obtain ⟨c, body, hcb, hc⟩ := decimalText_head n
  have hnum : scanNumber (decimalText n)
      = some ⟨decide (n < 0), natDigits n.natAbs, [], false, 0, []⟩ := by
    rw [decimalText_eq]; exact scanNumber_natDigits n.natAbs (decide (n < 0))
  have hdoc : document (decimalText n) = some (decimalText n) := by
    rw [hcb]; exact document_number c body _ hc (by rw [← hcb]; exact hnum) rfl
  have hne : ∀ x, x = 34 ∨ x = 123 ∨ x = 91 ∨ x = 116 ∨ x = 102 ∨ x = 110 → c ≠ x := by
    intro x hx
    rcases hc with rfl | h
    · omega
    · simp only [isDigit, Bool.and_eq_true, decide_eq_true_eq] at h
      omega
  have hstore : storeInt k (decimalText n) = some (.int k n) := by
    simp only [storeInt, hnum, hrange, natOfDigits_natDigits]
    have hlo0 : ¬ (decide (n < 0) = true ∧ lo = 0) := by
      rintro ⟨h1, h2⟩
      have : n < 0 := by simpa using h1
      omega
    by_cases hneg : n < 0
    · have hval : -((n.natAbs : Nat) : Int) = n := by omega
      have habs : |n| = -n := abs_of_neg hneg
      simp [hneg, hlo, hhi, habs]
      omega
    · have hval : ((n.natAbs : Nat) : Int) = n := by omega
      simp [hneg, hval, hlo, hhi]
  simp only [Unmarshal, hdoc]
  rw [hcb] at hstore ⊢
  simp only [hne 110 (by simp), hne 116 (by simp), hne 102 (by simp), hne 34 (by simp),
    hne 91 (by simp), hne 123 (by simp), if_false, or_self, hstore]

end Json

/-- On a text between double quotes the quoted-integer case is the leaf parse
of the text without the quotes. -/
theorem decodeReflectJSONQuoted_quoted (J : Stdlib) (mid : Bytes) (rv : Value)
    (fopts : FieldOptions) :
    decodeReflectJSONQuoted J (34 :: (mid ++ [34])) rv fopts
      = invokeStdlibJSONUnmarshal J mid rv fopts := by
  have hlen : (34 :: (mid ++ [34])).length - 1 = mid.length + 1 := by simp
  have h0 : (34 :: (mid ++ [34]))[0]? = some 34 := by simp
  have h1 : (34 :: (mid ++ [34]))[mid.length + 1]? = some 34 := by
    simp [List.getElem?_cons_succ, List.getElem?_append_right]
  have htake : ((34 :: (mid ++ [34])).take (mid.length + 1)).drop 1 = mid := by
    simp [List.take_succ_cons, List.take_append_eq_append_take]
  have hlt : ¬ (34 :: (mid ++ [34])).length < 2 := by simp
  simp only [decodeReflectJSONQuoted, hlen, h0, h1, htake, hlt, if_false]
  simp

/-- A text between double quotes is not `null`. -/
theorem quoted_ne_null (mid : Bytes) : 34 :: (mid ++ [34]) ≠ ascii "null" := by
  intro h
  have : (34 : Nat) = 110 := (List.cons.inj h).1
  omega

/-- With the reference `encoding/json`, the leaf parse of the decimal text of
an integer `n` that fits the kind of an integer variable stores `n` in it. -/
theorem invokeStdlibJSONUnmarshal_decimalText (k : Basic) (v n lo hi : Int)
    (fopts : FieldOptions)
    (hrange : Json.intRange k = some (lo, hi)) (hlo : lo ≤ n) (hhi : n ≤ hi) :
    invokeStdlibJSONUnmarshal Json.std (Json.decimalText n) (.int k v) fopts
      = Outcome.ret (.int k n) none := by
  have hzero : zero (Value.typeOf (.int k v)) = .int k 0 := by
    cases k <;> simp [Json.intRange] at hrange <;> rfl
  simp only [invokeStdlibJSONUnmarshal, hzero, Json.std,
    Json.Unmarshal_decimalText k 0 n lo hi hrange hlo hhi, Value.set]

/-! ## The Any envelope -/

/-- `deriveJSONObject` returns an error on every input: after the test for the
opening brace the brace is still in front, so the test for `"@type"` fails. -/
theorem deriveJSONObject_error (bz typeURL : Bytes) :
    ∃ err, deriveJSONObject bz typeURL = .error err := by
  have hbrace : ascii "\x7b" = [123] := by decide
  have htype : ascii "\"@type\"" = [34, 64, 116, 121, 112, 101, 34] := by decide
  cases bz with
  | nil => exact ⟨_, rfl⟩
  | cons c rest =>
    by_cases hc : c = 123
    · subst hc
      refine ⟨Error.typeFieldExpected (123 :: rest), ?_⟩
      simp [deriveJSONObject, hasPrefix, trimLeft, whitespace, hbrace, htype,
        List.dropWhile_cons]
    · refine ⟨Error.objectExpected (c :: rest), ?_⟩
      have hc1 : ¬ (123 = c) := fun e => hc e.symm
      simp [deriveJSONObject, hasPrefix, hbrace, hc1]

/-- In this model a type of kind `uint8` is the type `uint8`. -/
theorem RType.eq_of_kind_uint8 (t : RType) (h : t.kind = Kind.Uint8) :
    t = .basic .Uint8 := by
  cases t with
  | basic b => cases b <;> simp [RType.kind, Basic.kind] at h ⊢
  | _ => simp [RType.kind] at h

theorem getElem?_append_cons_length {α : Type} (l : List α) (x : α) (tl : List α) :
    (l ++ x :: tl)[l.length]? = some x := by
  induction l with
  | nil => simp
  | cons a l ih => simpa using ih

theorem set_append_cons_length {α : Type} (l : List α) (x v : α) (tl : List α) :
    (l ++ x :: tl).set l.length v = l ++ v :: tl := by
  induction l with
  | nil => rfl
  | cons a l ih => simp

/-- The element loop on a new slice: when every raw element decodes without
error into a zero value of the element type, the loop fills the slice with the
decoded values in order. -/
theorem decodeElems_fresh (dec : Decoder) (einfo : TypeInfo) (fopts : FieldOptions)
    (ert : RType) :
    ∀ (rest : List Bytes) (vs : List Value) (pre : List Bytes) (done : List Value),
      List.Forall₂ (fun ebz v => dec ebz einfo (zero ert) fopts = Outcome.ret v none)
        rest vs →
      pre.length = done.length →
      decodeElems dec einfo fopts (pre ++ rest) rest.length done.length
          (.slice ert (some (done ++ List.replicate rest.length (zero ert))))
        = Outcome.ret (.slice ert (some (done ++ vs))) none := by
  intro rest vs pre done h
  induction h generalizing pre done with
  | nil =>
    intro _
    simp [decodeElems]
  | @cons ebz v rest vs hhead _ ih =>
    intro hlen
    have hraw : (pre ++ ebz :: rest)[done.length]? = some ebz := by
      rw [← hlen]; exact getElem?_append_cons_length pre ebz rest
    have hnext := ih (pre ++ [ebz]) (done ++ [v]) (by simp [hlen])
    have e1 : pre ++ [ebz] ++ rest = pre ++ ebz :: rest := by simp
    have e2 : (done ++ [v]).length = done.length + 1 := by simp
    have e3 : done ++ [v] ++ List.replicate rest.length (zero ert)
        = done ++ v :: List.replicate rest.length (zero ert) := by simp
    have e4 : done ++ [v] ++ vs = done ++ v :: vs := by simp
    rw [e1, e2, e3, e4] at hnext
    simp only [List.length_cons, List.replicate_succ, decodeElems, Value.index?,
      getElem?_append_cons_length, hraw, hhead, Value.setIndex, set_append_cons_length,
      hnext]

/-- The element loop on a new slice stops at the first raw element whose
decode returns an error, and returns that error. -/
theorem decodeElems_fail (dec : Decoder) (einfo : TypeInfo) (fopts : FieldOptions)
    (ert : RType) (bad : Bytes) (post : List Bytes) (v : Value) (err : Error)
    (hbad : dec bad einfo (zero ert) fopts = Outcome.ret v (some err)) :
    ∀ (good : List Bytes) (vs : List Value) (pre : List Bytes) (done : List Value),
      List.Forall₂ (fun ebz v => dec ebz einfo (zero ert) fopts = Outcome.ret v none)
        good vs →
      pre.length = done.length →
      ∃ srv, decodeElems dec einfo fopts (pre ++ (good ++ bad :: post))
          (good ++ bad :: post).length done.length
          (.slice ert (some (done ++ List.replicate (good ++ bad :: post).length (zero ert))))
        = Outcome.ret srv (some err) := by
  intro good vs pre done h
  induction h generalizing pre done with
  | nil =>
    intro hlen
    have hraw : (pre ++ bad :: post)[done.length]? = some bad := by
      rw [← hlen]; exact getElem?_append_cons_length pre bad post
    simp only [List.nil_append, List.length_cons, List.replicate_succ, decodeElems,
      Value.index?, getElem?_append_cons_length, hraw, hbad]
    exact ⟨_, rfl⟩
  | @cons ebz w good vs hhead _ ih =>
    intro hlen
    have hraw : (pre ++ ebz :: (good ++ bad :: post))[done.length]? = some ebz := by
      rw [← hlen]; exact getElem?_append_cons_length pre ebz _
    obtain ⟨srv, hnext⟩ := ih (pre ++ [ebz]) (done ++ [w]) (by simp [hlen])
    have e1 : pre ++ [ebz] ++ (good ++ bad :: post) = pre ++ ebz :: (good ++ bad :: post) := by
      simp
    have e2 : (done ++ [w]).length = done.length + 1 := by simp
    have e3 : done ++ [w] ++ List.replicate (good ++ bad :: post).length (zero ert)
        = done ++ w :: List.replicate (good ++ bad :: post).length (zero ert) := by simp
    rw [e1, e2, e3] at hnext
    simp only [List.cons_append, List.length_cons, List.replicate_succ, decodeElems,
      Value.index?, getElem?_append_cons_length, hraw, hhead, Value.setIndex,
      set_append_cons_length]
    exact ⟨srv, hnext⟩

/-- For elements that are not bytes, `decodeReflectJSONSlice` is its general
case. -/
theorem decodeReflectJSONSlice_general (cdc : Codec) (dec : Decoder) (bz : Bytes)
    (info : TypeInfo) (rv : Value) (fopts : FieldOptions) (ert : RType)
    (helem : info.Typ.elem? = some ert) (hkind : ert.kind ≠ Kind.Uint8) :
    decodeReflectJSONSlice cdc dec bz info rv fopts
      = match cdc.getTypeInfoWLock ert with
        | .error err => Outcome.ret rv (some err)
        | .ok einfo =>
          match cdc.json.UnmarshalRawSlice bz with
          | .error err => Outcome.ret rv (some err)
          | .ok rawSlice =>
            if rawSlice.length = 0 then Outcome.ret (rv.set info.ZeroValue) none
            else
              match decodeElems dec einfo fopts rawSlice rawSlice.length 0
                  (Value.slice ert (some (List.replicate rawSlice.length (zero ert)))) with
              | .ret srv none => Outcome.ret (rv.set srv) none
              | .ret _ (some err) => Outcome.ret rv (some err)
              | .panic msg => Outcome.panic msg
              | .outOfFuel => Outcome.outOfFuel := by
  cases hk : ert.kind <;>
    first
      | exact absurd hk hkind
      | simp only [decodeReflectJSONSlice, helem, hk]

/-! ## The pointer loop -/

theorem RType.typeKind_ne_ptr (t : RType) (h : ∀ e, t = RType.ptr e → False) :
    t.kind ≠ Kind.Ptr := by
  cases t with
  | basic b => exact Basic.kind_ne_ptr b
  | ptr e => exact absurd rfl (h e)
  | _ => simp [RType.kind]

theorem kind_zero (t : RType) : (zero t).kind = t.kind := by
  cases t with
  | basic b => cases b <;> rfl
  | _ => rfl

theorem Value.kind_ne_ptr_of_not_ptr (v : Value)
    (h1 : ∀ e t, v = Value.ptr e (some t) → False) (h2 : ∀ e, v = Value.ptr e none → False) :
    v.kind ≠ Kind.Ptr := by
  cases v with
  | ptr e target =>
    cases target with
    | none => exact absurd rfl (h2 e)
    | some t => exact absurd rfl (h1 e t)
  | int k n => exact Basic.kind_ne_ptr k
  | float k m x => exact Basic.kind_ne_ptr k
  | other k => exact Basic.kind_ne_ptr k
  | _ => simp [Value.kind, Value.typeOf, RType.kind, Basic.kind]

theorem derefStep_of_not_ptr (v : Value) (h : v.kind ≠ Kind.Ptr) : derefStep v = none := by
  cases v <;> simp_all [derefStep, Value.kind, Value.typeOf, RType.kind]

theorem derefLoop_of_not_ptr (v : Value) (h : v.kind ≠ Kind.Ptr) (fuel : Nat) :
    derefLoop fuel v = some (v, 0) := by
  cases fuel <;> simp [derefLoop, derefStep_of_not_ptr v h]

theorem Value.derefSteps_of_not_ptr (v : Value) (h : v.kind ≠ Kind.Ptr) :
    v.derefSteps = 0 := by
  cases v <;> simp_all [Value.derefSteps, Value.kind, Value.typeOf, RType.kind]

theorem Value.allocated_of_not_ptr (v : Value) (h : v.kind ≠ Kind.Ptr) :
    v.allocated = true := by
  cases v <;> simp_all [Value.allocated, Value.kind, Value.typeOf, RType.kind]

theorem RType.derefNew_of_not_ptr (t : RType) (h : ∀ e, t = RType.ptr e → False) :
    t.derefNew = zero t := by
  cases t with
  | ptr e => exact absurd rfl (h e)
  | _ => rfl

theorem RType.typeSteps_of_not_ptr (t : RType) (h : ∀ e, t = RType.ptr e → False) :
    t.derefSteps = 0 := by
  cases t with
  | ptr e => exact absurd rfl (h e)
  | _ => rfl

theorem RType.storeNew_of_not_ptr (t : RType) (x : Value)
    (h : ∀ e, t = RType.ptr e → False) : t.storeNew x = x := by
  cases t with
  | ptr e => exact absurd rfl (h e)
  | _ => rfl

/-- The variable the loop ends at is not a pointer: below a nil pointer. -/
theorem RType.derefNew_kind (t : RType) : t.derefNew.kind ≠ Kind.Ptr := by
  induction t using RType.derefNew.induct with
  | case1 e ih => simpa [RType.derefNew] using ih
  | case2 t h =>
    rw [RType.derefNew_of_not_ptr t h, kind_zero]
    exact RType.typeKind_ne_ptr t h

/-- The variable the loop ends at is not a pointer. -/
theorem Value.derefPtrs_kind (rv : Value) : rv.derefPtrs.kind ≠ Kind.Ptr := by
  induction rv using Value.derefPtrs.induct with
  | case1 e t ih => simpa [Value.derefPtrs] using ih
  | case2 e => simpa [Value.derefPtrs] using RType.derefNew_kind e
  | case3 v h1 h2 =>
    have hk := Value.kind_ne_ptr_of_not_ptr v h1 h2
    rw [Value.derefPtrs_of_not_ptr v hk]
    exact hk

/-- Below a nil pointer to `t` the loop makes one iteration for each pointer
level of `t` and ends at the new innermost variable. -/
theorem derefLoop_zero (t : RType) :
    ∀ (fuel : Nat), t.derefSteps ≤ fuel →
      derefLoop fuel (zero t) = some (t.derefNew, t.derefSteps) := by
  induction t using RType.derefNew.induct with
  | case1 e ih =>
    intro fuel hle
    cases fuel with
    | zero => simp [RType.derefSteps] at hle
    | succ fuel =>
      have := ih fuel (by simpa [RType.derefSteps] using hle)
      simp [zero, derefLoop, derefStep, this, RType.derefNew, RType.derefSteps]
  | case2 t h =>
    intro fuel _
    have hk : (zero t).kind ≠ Kind.Ptr := by
      rw [kind_zero]; exact RType.typeKind_ne_ptr t h
    rw [derefLoop_of_not_ptr _ hk, RType.derefNew_of_not_ptr t h,
      RType.typeSteps_of_not_ptr t h]

/-- Given enough iterations, the loop ends at `rv.derefPtrs` after exactly
`rv.derefSteps` iterations. -/
theorem derefLoop_eq (rv : Value) :
    ∀ (fuel : Nat), rv.derefSteps ≤ fuel →
      derefLoop fuel rv = some (rv.derefPtrs, rv.derefSteps) := by
  induction rv using Value.derefPtrs.induct with
  | case1 e t ih =>
    intro fuel hle
    cases fuel with
    | zero => simp [Value.derefSteps] at hle
    | succ fuel =>
      have := ih fuel (by simpa [Value.derefSteps] using hle)
      simp [derefLoop, derefStep, this, Value.derefPtrs, Value.derefSteps]
  | case2 e =>
    intro fuel hle
    cases fuel with
    | zero => simp [Value.derefSteps] at hle
    | succ fuel =>
      have := derefLoop_zero e fuel (by simpa [Value.derefSteps] using hle)
      simp [derefLoop, derefStep, this, Value.derefPtrs, Value.derefSteps]
  | case3 v h1 h2 =>
    intro fuel _
    have hk := Value.kind_ne_ptr_of_not_ptr v h1 h2
    rw [derefLoop_of_not_ptr v hk, Value.derefPtrs_of_not_ptr v hk,
      Value.derefSteps_of_not_ptr v hk]

theorem derefLoop_zero_short (t : RType) :
    ∀ (fuel : Nat), fuel < t.derefSteps → derefLoop fuel (zero t) = none := by
  induction t using RType.derefNew.induct with
  | case1 e ih =>
    intro fuel hlt
    cases fuel with
    | zero => simp [zero, derefLoop, derefStep]
    | succ fuel =>
      have := ih fuel (by simpa [RType.derefSteps] using hlt)
      simp [zero, derefLoop, derefStep, this]
  | case2 t h =>
    intro fuel hlt
    rw [RType.typeSteps_of_not_ptr t h] at hlt
    exact absurd hlt (Nat.not_lt_zero _)

/-- Fewer iterations than pointer levels do not end the loop. -/
theorem derefLoop_short (rv : Value) :
    ∀ (fuel : Nat), fuel < rv.derefSteps → derefLoop fuel rv = none := by
  induction rv using Value.derefPtrs.induct with
  | case1 e t ih =>
    intro fuel hlt
    cases fuel with
    | zero => simp [derefLoop, derefStep]
    | succ fuel =>
      have := ih fuel (by simpa [Value.derefSteps] using hlt)
      simp [derefLoop, derefStep, this]
  | case2 e =>
    intro fuel hlt
    cases fuel with
    | zero => simp [derefLoop, derefStep]
    | succ fuel =>
      have := derefLoop_zero_short e fuel (by simpa [Value.derefSteps] using hlt)
      simp [derefLoop, derefStep, this]
  | case3 v h1 h2 =>
    intro fuel hlt
    rw [Value.derefSteps_of_not_ptr v (Value.kind_ne_ptr_of_not_ptr v h1 h2)] at hlt
    exact absurd hlt (Nat.not_lt_zero _)

/-- The new chain below a nil pointer has no nil level, as many levels as the
type, and `x` in its innermost variable. -/
theorem RType.storeNew_chain (t : RType) (x : Value) (hx : x.kind ≠ Kind.Ptr) :
    (t.storeNew x).allocated = true ∧ (t.storeNew x).derefPtrs = x
      ∧ (t.storeNew x).derefSteps = t.derefSteps := by
  induction t using RType.derefNew.induct with
  | case1 e ih =>
    obtain ⟨h1, h2, h3⟩ := ih
    simp [RType.storeNew, Value.allocated, Value.derefPtrs, Value.derefSteps,
      RType.derefSteps, h1, h2, h3]
  | case2 t h =>
    rw [RType.storeNew_of_not_ptr t x h, RType.typeSteps_of_not_ptr t h]
    exact ⟨Value.allocated_of_not_ptr x hx, Value.derefPtrs_of_not_ptr x hx,
      Value.derefSteps_of_not_ptr x hx⟩

/-- The destination after the loop has no nil level, as many levels as before,
and `x` in its innermost variable. -/
theorem Value.storePtrs_chain (rv x : Value) (hx : x.kind ≠ Kind.Ptr) :
    (rv.storePtrs x).allocated = true ∧ (rv.storePtrs x).derefPtrs = x
      ∧ (rv.storePtrs x).derefSteps = rv.derefSteps := by
  induction rv using Value.derefPtrs.induct with
  | case1 e t ih =>
    obtain ⟨h1, h2, h3⟩ := ih
    simp [Value.storePtrs, Value.allocated, Value.derefPtrs, Value.derefSteps, h1, h2, h3]
  | case2 e =>
    obtain ⟨h1, h2, h3⟩ := RType.storeNew_chain e x hx
    simp [Value.storePtrs, Value.allocated, Value.derefPtrs, Value.derefSteps, h1, h2, h3]
  | case3 v h1 h2 =>
    have hk := Value.kind_ne_ptr_of_not_ptr v h1 h2
    rw [Value.storePtrs_of_not_ptr v x hk, Value.derefSteps_of_not_ptr v hk]
    exact ⟨Value.allocated_of_not_ptr x hx, Value.derefPtrs_of_not_ptr x hx,
      Value.derefSteps_of_not_ptr x hx⟩

/-! ## The well-known stage -/

/-- When the well-known decoder declines without error and hands on `inner`,
the part after the pointer loop is that part for the descriptor with the flag
cleared, run on `inner`. -/
theorem decodeReflectJSONValue_declined (cdc : Codec) (dec : Decoder) (bz : Bytes)
    (info : TypeInfo) (rv inner : Value) (fopts : FieldOptions)
    (hflag : info.IsJSONWellKnownType = true)
    (hhook : cdc.decodeReflectJSONWellKnown bz info rv fopts
      = { rv := inner, ok := false, err := none }) :
    decodeReflectJSONValue cdc dec bz info rv fopts
      = decodeReflectJSONValue cdc dec bz info.clearWellKnown inner fopts := by
  simp only [decodeReflectJSONValue, hflag, hhook, TypeInfo.clearWellKnown, if_true,
    Bool.false_eq_true, if_false, Bool.false_or, Option.isSome_none]
  rfl

/-! ## Varints -/

namespace Binary

/-- Reading what was written: a value below `128 ^ (fuel + 1)` written with at
most `fuel + 1` bytes is read back, with the input after it. -/
theorem decodeUvarint_encodeUvarint (rest : Bytes) :
    ∀ (fuel v : Nat), v < 128 ^ (fuel + 1) →
      decodeUvarint (fuel + 1) (encodeUvarint (fuel + 1) v ++ rest) = some (v, rest) := by
  intro fuel
  induction fuel with
  | zero =>
    intro v hv
    have hsmall : v < 128 := by simpa using hv
    simp [encodeUvarint, decodeUvarint, hsmall]
  | succ fuel ih =>
    intro v hv
    by_cases hsmall : v < 128
    · simp [encodeUvarint, decodeUvarint, hsmall]
    · have hdiv : v / 128 < 128 ^ (fuel + 1) := by
        rw [Nat.div_lt_iff_lt_mul (by decide)]
        rw [pow_succ] at hv
        exact hv
      have hb : ¬ (v % 128 + 128 < 128) := by omega
      have hval : v % 128 + 128 * (v / 128) = v := by
        have := Nat.div_add_mod v 128
        omega
      rw [encodeUvarint, if_neg hsmall, List.cons_append, decodeUvarint, if_neg hb,
        ih (v / 128) hdiv]
      simp [hval]

/-- A 64-bit value written by `putUvarint` is read back by `readUvarint`. -/
theorem readUvarint_putUvarint (v : Nat) (rest : Bytes) (hv : v < 2 ^ 64) :
    readUvarint (putUvarint v ++ rest) = some (v, rest) := by
  have hlt : v < 128 ^ (9 + 1) := lt_trans hv (by norm_num)
  have hread := decodeUvarint_encodeUvarint rest 9 v hlt
  simp only [readUvarint, putUvarint, hread, hv, if_true]

end Binary

/-! ## The claims -/

/-- C1 (amended): for every codec, every positive recursion budget, every type
descriptor (whatever its kind and its well-known and custom-hook flags) and
every destination, except a descriptor of interface kind paired with a
destination of pointer kind, `decodeReflectJSON` on exactly the bytes `null`
returns no error and leaves the destination equal to the zero value of its
type; the result does not depend on the codec, so no hook and no kind-specific
decoder takes part in it. -/
theorem decodeReflectJSON_null (cdc : Codec) (fuel : Nat) (info : TypeInfo)
    (rv : Value) (fopts : FieldOptions)
    (h : ¬ (info.Typ.kind = Kind.Interface ∧ rv.kind = Kind.Ptr)) :
    decodeReflectJSON cdc (fuel + 1) (ascii "null") info rv fopts
      = Outcome.ret (zero rv.typeOf) none := by
  have h2 : nullBytes (ascii "null") = true := by decide
  simp only [decodeReflectJSON, h, h2, if_false, if_true]
  rw [Value.set_zero]

/-- C1 (witness): `null` into a non-nil slice whose descriptor carries both the
well-known flag and the custom-hook flag. -/
theorem decodeReflectJSON_null_witness :
    ¬ ((TypeInfo.mk (.slice (.basic .Int32)) (.slice (.basic .Int32) none) false true
          (.basic .Int32) true false []).Typ.kind = Kind.Interface
        ∧ (Value.slice (.basic .Int32) (some [.int .Int32 7])).kind = Kind.Ptr)
    ∧ decodeReflectJSON plainCodec 1 (ascii "null")
        (TypeInfo.mk (.slice (.basic .Int32)) (.slice (.basic .Int32) none) false true
          (.basic .Int32) true false [])
        (.slice (.basic .Int32) (some [.int .Int32 7])) {}
      = Outcome.ret (.slice (.basic .Int32) none) none :=
  ⟨by decide, decodeReflectJSON_null plainCodec 0 _ _ _ (by decide)⟩

/-- C1 (counterexample): for a descriptor of interface kind and a destination
that is a (nil) pointer to that interface, `decodeReflectJSON` on `null` does
not return: the guard in front of the null case panics. -/
theorem decodeReflectJSON_null_iface_ptr :
    decodeReflectJSON plainCodec 1 (ascii "null") (plainInfo (.iface "I"))
        (.ptr (.iface "I") none) {}
      = Outcome.panic "should not happen"
    ∧ decodeReflectJSON plainCodec 1 (ascii "null") (plainInfo (.iface "I"))
        (.ptr (.iface "I") none) {}
      ≠ Outcome.ret (zero (Value.typeOf (.ptr (.iface "I") none))) none := by
  have h : decodeReflectJSON plainCodec 1 (ascii "null") (plainInfo (.iface "I"))
        (.ptr (.iface "I") none) {} = Outcome.panic "should not happen" := by rfl
  exact ⟨h, by rw [h]; exact fun h => Outcome.noConfusion h⟩

/-- C2: for a descriptor of kind int64, int, uint64 or uint without well-known
flag and custom hook, a destination that is not a pointer, and every input
that is not empty, is not `null`, and whose first or last byte is not a double
quote, `decodeReflectJSON` (with any positive recursion budget) returns the
quoted-value error and leaves the destination as it was. -/
theorem decodeReflectJSON_int64_unquoted (cdc : Codec) (fuel : Nat) (bz : Bytes)
    (info : TypeInfo) (rv : Value) (fopts : FieldOptions)
    (hkind : is64 info.Typ.kind = true) (hrv : rv.kind ≠ Kind.Ptr)
    (hwk : info.IsJSONWellKnownType = false) (hum : info.IsAminoUnmarshaler = false)
    (hne : bz ≠ []) (hnull : bz ≠ ascii "null")
    (hq : bz.head? ≠ some 34 ∨ bz.getLast? ≠ some 34) :
    decodeReflectJSON cdc (fuel + 1) bz info rv fopts
      = Outcome.ret rv (some (Error.quotedIntExpected bz)) := by
  rw [decodeReflectJSON_of_not_ptr cdc fuel bz info rv fopts hrv hnull,
    decodeReflectJSONValue_is64 cdc _ bz info rv fopts hkind hwk hum]
  obtain ⟨first, hfirst⟩ : ∃ first, bz.head? = some first := by
    cases bz with
    | nil => exact absurd rfl hne
    | cons b _ => exact ⟨b, rfl⟩
  obtain ⟨last, hlast⟩ : ∃ last, bz.getLast? = some last :=
    ⟨_, List.getLast?_eq_getLast _ hne⟩
  have h0 : bz[0]? = some first := by rw [← List.head?_eq_getElem?]; exact hfirst
  have h1 : bz[bz.length - 1]? = some last := by
    rw [← List.getLast?_eq_getElem?]; exact hlast
  have hcond : (first ≠ 34 || last ≠ 34) = true := by
    rcases hq with h | h
    · rw [hfirst] at h
      have : first ≠ 34 := fun e => h (by rw [e])
      simp [this]
    · rw [hlast] at h
      have : last ≠ 34 := fun e => h (by rw [e])
      simp [this]
  simp only [decodeReflectJSONQuoted, h0, h1, hcond, if_true]

/-- C2 (witness): bare `150` into an int64 holding 7. -/
theorem decodeReflectJSON_int64_unquoted_witness :
    decodeReflectJSON plainCodec 1 (ascii "150") (plainInfo (.basic .Int64))
        (.int .Int64 7) {}
      = Outcome.ret (.int .Int64 7) (some (Error.quotedIntExpected (ascii "150"))) :=
  decodeReflectJSON_int64_unquoted plainCodec 0 (ascii "150") (plainInfo (.basic .Int64))
    (.int .Int64 7) {} (by decide) (by decide) (by decide) (by decide) (by decide)
    (by decide) (by decide)

/-- C3: integer leaf decoding is the JSON number parse on the right bytes.
For every positive recursion budget, a destination that is not a pointer and
a descriptor without well-known flag and custom hook: (1) for the kinds int64, int, uint64, uint the outcome on
a text between double quotes is the outcome of the leaf parse
`invokeStdlibJSONUnmarshal` on the text without the quotes; (2) for the kinds
int32, int16, int8, uint32, uint16, uint8 the outcome on any input other than
`null` is the outcome of the leaf parse on the unmodified input; (3) with the
reference `encoding/json`, for every integer `n` in the range of the kind of
an integer destination, the 64-bit kinds decode the quoted decimal text of `n`
to `n` and the narrower kinds decode the bare decimal text of `n` to `n`,
without error. -/
theorem decodeReflectJSON_integer (cdc : Codec) (fuel : Nat) (info : TypeInfo)
    (rv : Value) (fopts : FieldOptions) (hrv : rv.kind ≠ Kind.Ptr)
    (hwk : info.IsJSONWellKnownType = false) (hum : info.IsAminoUnmarshaler = false) :
    (is64 info.Typ.kind = true → ∀ (mid : Bytes),
      decodeReflectJSON cdc (fuel + 1) (34 :: (mid ++ [34])) info rv fopts
        = invokeStdlibJSONUnmarshal cdc.json mid rv fopts)
    ∧ (isNarrowInt info.Typ.kind = true → ∀ (bz : Bytes), bz ≠ ascii "null" →
      decodeReflectJSON cdc (fuel + 1) bz info rv fopts
        = invokeStdlibJSONUnmarshal cdc.json bz rv fopts)
    ∧ (cdc.json = Json.std → ∀ (k : Basic) (v n lo hi : Int), rv = .int k v →
      Json.intRange k = some (lo, hi) → lo ≤ n → n ≤ hi →
      (is64 info.Typ.kind = true →
        decodeReflectJSON cdc (fuel + 1) (34 :: (Json.decimalText n ++ [34])) info rv fopts
          = Outcome.ret (.int k n) none)
      ∧ (isNarrowInt info.Typ.kind = true →
        decodeReflectJSON cdc (fuel + 1) (Json.decimalText n) info rv fopts
          = Outcome.ret (.int k n) none)) := by
  have h64 : is64 info.Typ.kind = true → ∀ (mid : Bytes),
      decodeReflectJSON cdc (fuel + 1) (34 :: (mid ++ [34])) info rv fopts
        = invokeStdlibJSONUnmarshal cdc.json mid rv fopts := by
    intro hkind mid
    rw [decodeReflectJSON_of_not_ptr cdc fuel _ info rv fopts hrv (quoted_ne_null mid),
      decodeReflectJSONValue_is64 cdc _ _ info rv fopts hkind hwk hum,
      decodeReflectJSONQuoted_quoted]
  have hnarrow : isNarrowInt info.Typ.kind = true → ∀ (bz : Bytes), bz ≠ ascii "null" →
      decodeReflectJSON cdc (fuel + 1) bz info rv fopts
        = invokeStdlibJSONUnmarshal cdc.json bz rv fopts := by
    intro hkind bz hnull
    rw [decodeReflectJSON_of_not_ptr cdc fuel bz info rv fopts hrv hnull,
      decodeReflectJSONValue_narrow cdc _ bz info rv fopts hkind hwk hum]
  refine ⟨h64, hnarrow, ?_⟩
  intro hstd k v n lo hi hrvk hrange hlo hhi
  subst hrvk
  refine ⟨fun hkind => ?_, fun hkind => ?_⟩
  · rw [h64 hkind, hstd]
    exact invokeStdlibJSONUnmarshal_decimalText k v n lo hi fopts hrange hlo hhi
  · have hnull : Json.decimalText n ≠ ascii "null" := by
      obtain ⟨c, body, hcb, hc⟩ := Json.decimalText_head n
      rw [hcb]
      intro h
      have h110 : c = 110 := (List.cons.inj h).1
      rcases hc with h45 | hd
      · omega
      · rw [h110] at hd; exact absurd hd (by decide)
    rw [hnarrow hkind _ hnull, hstd]
    exact invokeStdlibJSONUnmarshal_decimalText k v n lo hi fopts hrange hlo hhi

/-- C3 (witness): `"150"` into an int64 holding 7, bare `150` into an int32
holding 7, and `"150"` into that int32, for which the quotes are not removed. -/
theorem decodeReflectJSON_integer_witness :
    decodeReflectJSON plainCodec 1 (ascii "\"150\"") (plainInfo (.basic .Int64))
        (.int .Int64 7) noOptions
      = Outcome.ret (.int .Int64 150) none
    ∧ decodeReflectJSON plainCodec 1 (ascii "150") (plainInfo (.basic .Int32))
        (.int .Int32 7) noOptions
      = Outcome.ret (.int .Int32 150) none
    ∧ decodeReflectJSON plainCodec 1 (ascii "\"150\"") (plainInfo (.basic .Int32))
        (.int .Int32 7) noOptions
      = Outcome.ret (.int .Int32 7) (some Json.typeError) :=
  ⟨((decodeReflectJSON_integer plainCodec 0 (plainInfo (.basic .Int64)) (.int .Int64 7)
      noOptions (by decide) (by decide) (by decide)).2.2 rfl .Int64 7 150
      (-9223372036854775808) 9223372036854775807 rfl rfl (by decide) (by decide)).1
      (by decide),
   ((decodeReflectJSON_integer plainCodec 0 (plainInfo (.basic .Int32)) (.int .Int32 7)
      noOptions (by decide) (by decide) (by decide)).2.2 rfl .Int32 7 150
      (-2147483648) 2147483647 rfl rfl (by decide) (by decide)).2 (by decide),
   ((decodeReflectJSON_integer plainCodec 0 (plainInfo (.basic .Int32)) (.int .Int32 7)
      noOptions (by decide) (by decide) (by decide)).2.1 (by decide) (ascii "\"150\"")
      (by decide)).trans (by rfl)⟩

/-- C4: for every positive recursion budget, a descriptor of kind float32 or
float64 without well-known flag and custom hook, a destination that is not a
pointer and every input other than `null`: with `fopts.Unsafe` false `decodeReflectJSON` returns the
unsafe-required error and leaves the destination as it was, whatever the JSON
parser would do; with `fopts.Unsafe` true its outcome is exactly the outcome of
the leaf parse `invokeStdlibJSONUnmarshal` on the same input. -/
theorem decodeReflectJSON_float (cdc : Codec) (fuel : Nat) (bz : Bytes)
    (info : TypeInfo) (rv : Value) (fopts : FieldOptions)
    (hkind : isFloat info.Typ.kind = true) (hrv : rv.kind ≠ Kind.Ptr)
    (hwk : info.IsJSONWellKnownType = false) (hum : info.IsAminoUnmarshaler = false)
    (hnull : bz ≠ ascii "null") :
    (fopts.Unsafe = false →
      decodeReflectJSON cdc (fuel + 1) bz info rv fopts
        = Outcome.ret rv (some Error.floatRequiresUnsafe))
    ∧ (fopts.Unsafe = true →
      decodeReflectJSON cdc (fuel + 1) bz info rv fopts
        = invokeStdlibJSONUnmarshal cdc.json bz rv fopts) := by
  rw [decodeReflectJSON_of_not_ptr cdc fuel bz info rv fopts hrv hnull,
    decodeReflectJSONValue_float cdc _ bz info rv fopts hkind hwk hum]
  constructor <;> intro hu <;> simp [hu]

/-- C4 (witness): `1.5` into a float64 holding 0.25, without and with the
unsafe option. -/
theorem decodeReflectJSON_float_witness :
    decodeReflectJSON plainCodec 1 (ascii "1.5") (plainInfo (.basic .Float64))
        (.float .Float64 25 (-2)) {}
      = Outcome.ret (.float .Float64 25 (-2)) (some Error.floatRequiresUnsafe)
    ∧ decodeReflectJSON plainCodec 1 (ascii "1.5") (plainInfo (.basic .Float64))
        (.float .Float64 25 (-2)) { Unsafe := true }
      = Outcome.ret (.float .Float64 15 (-1)) none :=
  ⟨(decodeReflectJSON_float plainCodec 0 (ascii "1.5") (plainInfo (.basic .Float64))
      (.float .Float64 25 (-2)) {} (by decide) (by decide) (by decide) (by decide)
      (by decide)).1 rfl,
   ((decodeReflectJSON_float plainCodec 0 (ascii "1.5") (plainInfo (.basic .Float64))
      (.float .Float64 25 (-2)) { Unsafe := true } (by decide) (by decide) (by decide)
      (by decide) (by decide)).2 rfl).trans (by rfl)⟩

/-- C5 (the code at the failing input): decoding the object with `"F":1.5`
into `struct { F float64 }` whose field is tagged `amino:"unsafe"`, with the
options of a top-level call, fails with the unsafe-required error and leaves
the field as it was, through `decodeReflectJSONStruct` and through
`decodeReflectJSON`; the field decodes only when the caller's own options
carry the flag, and then also for a field that is not tagged. -/
theorem decodeReflectJSONStruct_unsafe_field_rejected :
    decodeReflectJSONStruct plainCodec (decodeReflectJSON plainCodec 1)
        (ascii "\x7b\"F\":1.5\x7d") unsafeFloatStruct
        (.struct "S" [.float .Float64 0 0]) noOptions
      = Outcome.ret (.struct "S" [.float .Float64 0 0]) (some Error.floatRequiresUnsafe)
    ∧ decodeReflectJSON plainCodec 2 (ascii "\x7b\"F\":1.5\x7d") unsafeFloatStruct
        (.struct "S" [.float .Float64 0 0]) noOptions
      = Outcome.ret (.struct "S" [.float .Float64 0 0]) (some Error.floatRequiresUnsafe)
    ∧ decodeReflectJSONStruct plainCodec (decodeReflectJSON plainCodec 1)
        (ascii "\x7b\"F\":1.5\x7d") unsafeFloatStruct
        (.struct "S" [.float .Float64 0 0]) { Unsafe := true }
      = Outcome.ret (.struct "S" [.float .Float64 15 (-1)]) none
    ∧ decodeReflectJSONStruct plainCodec (decodeReflectJSON plainCodec 1)
        (ascii "\x7b\"F\":1.5\x7d") plainFloatStruct
        (.struct "S" [.float .Float64 0 0]) { Unsafe := true }
      = Outcome.ret (.struct "S" [.float .Float64 15 (-1)]) none :=
  ⟨by rfl, by rfl, by rfl, by rfl⟩

/-- C6: for a descriptor of the array type `[n]byte`, a destination array of
bytes, and an input that `encoding/json` decodes without error into the byte
string `buf` (a valid JSON base64 string of `k = len(buf)` bytes),
`decodeReflectJSONArray` returns, and it returns an error if and only if
`k ≠ n`. -/
theorem decodeReflectJSONArray_bytes_error_iff (cdc : Codec) (dec : Decoder)
    (bz : Bytes) (info : TypeInfo) (xs : List Value) (fopts : FieldOptions)
    (n : Nat) (buf : Value)
    (hinfo : info.Typ = .array n (.basic .Uint8))
    (hbuf : cdc.json.Unmarshal bz (.slice (.basic .Uint8) none) = (buf, none)) :
    (decodeReflectJSONArray cdc dec bz info (.array (.basic .Uint8) xs) fopts).returned = true
    ∧ ((decodeReflectJSONArray cdc dec bz info (.array (.basic .Uint8) xs) fopts).failed = true
        ↔ buf.elems.length ≠ n) := by
  by_cases hk : buf.elems.length = n <;>
    simp [decodeReflectJSONArray, hinfo, RType.elem?, RType.len?, RType.kind, Basic.kind,
      hbuf, reflectCopy, RType.isByte, Outcome.returned, Outcome.failed, hk]

/-- C6 (witness): into a `[32]byte`, the base64 text of 31 zero bytes fails
and the base64 text of 32 zero bytes does not. -/
theorem decodeReflectJSONArray_bytes_error_iff_witness :
    (decodeReflectJSONArray plainCodec (decodeReflectJSON plainCodec 0)
        (ascii "\"AAAAAAAAAAAAAAAAAAAAAAAAAAAAAAAAAAAAAAAAAA==\"") (byteArrayInfo 32)
        (.array (.basic .Uint8) (List.replicate 32 (.int .Uint8 0))) noOptions).failed = true
    ∧ ¬ (decodeReflectJSONArray plainCodec (decodeReflectJSON plainCodec 0)
        (ascii "\"AAAAAAAAAAAAAAAAAAAAAAAAAAAAAAAAAAAAAAAAAAA=\"") (byteArrayInfo 32)
        (.array (.basic .Uint8) (List.replicate 32 (.int .Uint8 0))) noOptions).failed = true :=
  ⟨(decodeReflectJSONArray_bytes_error_iff plainCodec (decodeReflectJSON plainCodec 0)
      (ascii "\"AAAAAAAAAAAAAAAAAAAAAAAAAAAAAAAAAAAAAAAAAA==\"") (byteArrayInfo 32)
      (List.replicate 32 (.int .Uint8 0)) noOptions 32
      (.slice (.basic .Uint8) (some (List.replicate 31 (.int .Uint8 0))))
      (by rfl) (by rfl)).2.2 (by decide),
   fun h => (decodeReflectJSONArray_bytes_error_iff plainCodec (decodeReflectJSON plainCodec 0)
      (ascii "\"AAAAAAAAAAAAAAAAAAAAAAAAAAAAAAAAAAAAAAAAAAA=\"") (byteArrayInfo 32)
      (List.replicate 32 (.int .Uint8 0)) noOptions 32
      (.slice (.basic .Uint8) (some (List.replicate 32 (.int .Uint8 0))))
      (by rfl) (by rfl)).2.1 h (by decide)⟩

/-- C7 (the code at the failing input): the base64 text of the single byte 1
into a `[2]byte` holding 9, 9 returns the byte-length-mismatch error, and the
array then holds 1, 9: the decoded byte was copied into the destination. -/
theorem decodeReflectJSONArray_bytes_mismatch_copies :
    decodeReflectJSONArray plainCodec (decodeReflectJSON plainCodec 0)
        (ascii "\"AQ==\"") (byteArrayInfo 2) (byteArray [9, 9]) noOptions
      = Outcome.ret (byteArray [1, 9]) (some (Error.byteLengthMismatch 1 2))
    ∧ byteArray [1, 9] ≠ byteArray [9, 9] := by
  refine ⟨by rfl, ?_⟩
  simp [byteArray]

/-- C8: for every struct descriptor (its fields having distinct indices),
every prior destination value and every input that `encoding/json` reads as an
object without a key equal to the JSON name of a field marked omit-empty,
whenever `decodeReflectJSONStruct` returns (with or without error) that field
of the destination holds what it held before the call. -/
theorem decodeReflectJSONStruct_omitEmpty_absent (cdc : Codec) (dec : Decoder)
    (bz : Bytes) (info : TypeInfo) (rv : Value) (fopts : FieldOptions)
    (rawMap : List (Bytes × Bytes)) (f : FieldInfo)
    (hmap : cdc.json.UnmarshalRawMap bz = .ok rawMap)
    (hf : f ∈ info.Fields) (hidx : (info.Fields.map FieldInfo.Index).Nodup)
    (hoe : f.JSONOmitEmpty = true) (hkeys : ∀ p ∈ rawMap, p.1 ≠ f.JSONName) :
    ∀ (rv1 : Value) (err : Option Error),
      decodeReflectJSONStruct cdc dec bz info rv fopts = Outcome.ret rv1 err →
      rv1.field? f.Index = rv.field? f.Index := by
  intro rv1 err h
  simp only [decodeReflectJSONStruct, hmap] at h
  refine decodeFields_frame cdc dec rawMap fopts f.Index info.Fields rv rv1 err ?_ h
  intro g hg
  by_cases hgi : g.Index = f.Index
  · right
    rw [index_ne_of_nodup f info.Fields hidx hf g hg hgi]
    exact ⟨rawMapGet_of_no_key rawMap f.JSONName hkeys, hoe⟩
  · exact Or.inl hgi

/-- C8 (witness): the object with only `"Vanilla":5` decoded into a value
holding 7 and 9 leaves 9 in the omit-empty field `Topping`. -/
theorem decodeReflectJSONStruct_omitEmpty_absent_witness :
    decodeReflectJSONStruct plainCodec (decodeReflectJSON plainCodec 1)
        (ascii "\x7b\"Vanilla\":5\x7d") sundaeInfo (sundae 7 9) noOptions
      = Outcome.ret (sundae 5 9) none
    ∧ (sundae 5 9).field? 1 = (sundae 7 9).field? 1 :=
  ⟨by rfl,
   decodeReflectJSONStruct_omitEmpty_absent plainCodec (decodeReflectJSON plainCodec 1)
    (ascii "\x7b\"Vanilla\":5\x7d") sundaeInfo (sundae 7 9) noOptions
    [(ascii "Vanilla", ascii "5")] (fieldInfo "Topping" (.basic .Int32) 1 true false)
    (by rfl) (List.Mem.tail _ (List.Mem.head _)) (by decide) (by rfl) (by decide)
    (sundae 5 9) none (by rfl)⟩

/-- C9: for every struct descriptor (its fields having distinct indices), every
prior destination value and every input that `encoding/json` reads as an object
without a key equal to the JSON name of a field not marked omit-empty, a
successful `decodeReflectJSONStruct` leaves in that field the zero value of the
type of what the field held before the call. -/
theorem decodeReflectJSONStruct_absent_zeroed (cdc : Codec) (dec : Decoder)
    (bz : Bytes) (info : TypeInfo) (rv : Value) (fopts : FieldOptions)
    (rawMap : List (Bytes × Bytes)) (f : FieldInfo)
    (hmap : cdc.json.UnmarshalRawMap bz = .ok rawMap)
    (hf : f ∈ info.Fields) (hidx : (info.Fields.map FieldInfo.Index).Nodup)
    (hoe : f.JSONOmitEmpty = false) (hkeys : ∀ p ∈ rawMap, p.1 ≠ f.JSONName) :
    ∀ (rv1 : Value),
      decodeReflectJSONStruct cdc dec bz info rv fopts = Outcome.ret rv1 none →
      ∃ frv, rv.field? f.Index = some frv
        ∧ rv1.field? f.Index = some (zero frv.typeOf) := by
  intro rv1 h
  simp only [decodeReflectJSONStruct, hmap] at h
  exact decodeFields_zero cdc dec rawMap fopts f
    (rawMapGet_of_no_key rawMap f.JSONName hkeys) hoe info.Fields rv rv1 hf hidx h

/-- C9 (witness): the object with only `"Topping":3` decoded into a value
holding 7 and 9 leaves 0 in the field `Vanilla`. -/
theorem decodeReflectJSONStruct_absent_zeroed_witness :
    decodeReflectJSONStruct plainCodec (decodeReflectJSON plainCodec 1)
        (ascii "\x7b\"Topping\":3\x7d") sundaeInfo (sundae 7 9) noOptions
      = Outcome.ret (sundae 0 3) none
    ∧ ∃ frv, (sundae 7 9).field? 0 = some frv
        ∧ (sundae 0 3).field? 0 = some (zero frv.typeOf) :=
  ⟨by rfl,
   decodeReflectJSONStruct_absent_zeroed plainCodec (decodeReflectJSON plainCodec 1)
    (ascii "\x7b\"Topping\":3\x7d") sundaeInfo (sundae 7 9) noOptions
    [(ascii "Topping", ascii "3")] (fieldInfo "Vanilla" (.basic .Int32) 0 false false)
    (by rfl) (List.Mem.head _) (by decide) (by rfl) (by decide)
    (sundae 0 3) (by rfl)⟩

/-- C10: `decodeReflectJSONStruct` matches keys to fields by equality of bytes.
For a struct descriptor with distinct field indices and an input read as an
object: (1) when the keys are distinct, every field whose JSON name is, byte
for byte, the key of a member holds after a successful call what the
recursive decoder left when called on that member's value; (2) for every
field `f` whose JSON name none of the keys equals (keys that differ from it
in letter case included): if `f` is omit-empty the field is untouched
whenever the call returns; if not, the field is zero after a successful call;
and the call has the same outcome on any input read as that object with the
members whose key case-folds to the name of `f` erased, provided no other
field's JSON name case-folds to it, so the values of such members are never
decoded. -/
theorem decodeReflectJSONStruct_exact_key (cdc : Codec) (dec : Decoder)
    (bz : Bytes) (info : TypeInfo) (rv : Value) (fopts : FieldOptions)
    (rawMap : List (Bytes × Bytes))
    (hmap : cdc.json.UnmarshalRawMap bz = .ok rawMap)
    (hidx : (info.Fields.map FieldInfo.Index).Nodup) :
    (∀ (g : FieldInfo) (ginfo : TypeInfo) (v : Bytes), g ∈ info.Fields →
      (rawMap.map Prod.fst).Nodup → (g.JSONName, v) ∈ rawMap → v ≠ [] →
      cdc.getTypeInfoWLock g.Typ = .ok ginfo →
      ∀ (rv1 : Value),
        decodeReflectJSONStruct cdc dec bz info rv fopts = Outcome.ret rv1 none →
        ∃ frv frv1, rv.field? g.Index = some frv
          ∧ dec v ginfo frv fopts = Outcome.ret frv1 none
          ∧ rv1.field? g.Index = some frv1)
    ∧ (∀ (f : FieldInfo), f ∈ info.Fields → (∀ p ∈ rawMap, p.1 ≠ f.JSONName) →
      (f.JSONOmitEmpty = true → ∀ (rv1 : Value) (err : Option Error),
        decodeReflectJSONStruct cdc dec bz info rv fopts = Outcome.ret rv1 err →
        rv1.field? f.Index = rv.field? f.Index)
      ∧ (f.JSONOmitEmpty = false → ∀ (rv1 : Value),
        decodeReflectJSONStruct cdc dec bz info rv fopts = Outcome.ret rv1 none →
        ∃ frv, rv.field? f.Index = some frv
          ∧ rv1.field? f.Index = some (zero frv.typeOf))
      ∧ (∀ (bz1 : Bytes),
        cdc.json.UnmarshalRawMap bz1
          = .ok (rawMap.filter (fun p => Json.foldKey p.1 ≠ Json.foldKey f.JSONName)) →
        (∀ g ∈ info.Fields, Json.foldKey g.JSONName = Json.foldKey f.JSONName →
          g.JSONName = f.JSONName) →
        decodeReflectJSONStruct cdc dec bz info rv fopts
          = decodeReflectJSONStruct cdc dec bz1 info rv fopts)) := by
  refine ⟨?_, ?_⟩
  · intro g ginfo v hg hnd hmem hv hgi rv1 h
    simp only [decodeReflectJSONStruct, hmap] at h
    have hget : rawMapGet rawMap g.JSONName = v :=
      rawMapGet_of_member g.JSONName v rawMap hnd hmem
    have hpres : (rawMapGet rawMap g.JSONName).length ≠ 0 := by
      rw [hget]
      exact fun e => hv (List.length_eq_zero.mp e)
    have hfield := decodeFields_present cdc dec rawMap fopts g ginfo hgi hpres info.Fields
      rv rv1 hg hidx h
    rw [hget] at hfield
    exact hfield
  · intro f hf hkeys
    have habs := rawMapGet_of_no_key rawMap f.JSONName hkeys
    refine ⟨?_, ?_, ?_⟩
    · intro hoe rv1 err h
      simp only [decodeReflectJSONStruct, hmap] at h
      refine decodeFields_frame cdc dec rawMap fopts f.Index info.Fields rv rv1 err ?_ h
      intro g hg
      by_cases hgi : g.Index = f.Index
      · right
        rw [index_ne_of_nodup f info.Fields hidx hf g hg hgi]
        exact ⟨habs, hoe⟩
      · exact Or.inl hgi
    · intro hoe rv1 h
      simp only [decodeReflectJSONStruct, hmap] at h
      exact decodeFields_zero cdc dec rawMap fopts f habs hoe info.Fields rv rv1 hf hidx h
    · intro bz1 hmap1 hnames
      simp only [decodeReflectJSONStruct, hmap, hmap1]
      apply decodeFields_congr
      intro g hg
      by_cases hfold : Json.foldKey g.JSONName = Json.foldKey f.JSONName
      · rw [hnames g hg hfold, habs]
        refine (rawMapGet_of_no_key _ f.JSONName ?_).symm
        intro p hp
        exact hkeys p (List.mem_of_mem_filter hp)
      · simp only [rawMapGet]
        rw [lookup_filter_of_keep _ g.JSONName (fun v => by simpa using hfold)]

/-- C10 (witness): the object with the keys `vanilla` and `Topping` decoded
into a value holding 7 and 9: `Topping`, whose name is a key, is decoded from
that key's value 3; `Vanilla`, whose name differs from the key `vanilla` in
letter case, is zeroed, and the outcome is that of the object without the
member `vanilla`. -/
theorem decodeReflectJSONStruct_exact_key_witness :
    decodeReflectJSONStruct plainCodec (decodeReflectJSON plainCodec 1)
        (ascii "\x7b\"vanilla\":5,\"Topping\":3\x7d") sundaeInfo (sundae 7 9) noOptions
      = Outcome.ret (sundae 0 3) none
    ∧ (∃ frv frv1, (sundae 7 9).field? 1 = some frv
        ∧ decodeReflectJSON plainCodec 1 (ascii "3") (plainInfo (.basic .Int32)) frv noOptions
          = Outcome.ret frv1 none
        ∧ (sundae 0 3).field? 1 = some frv1)
    ∧ (∃ frv, (sundae 7 9).field? 0 = some frv
        ∧ (sundae 0 3).field? 0 = some (zero frv.typeOf))
    ∧ decodeReflectJSONStruct plainCodec (decodeReflectJSON plainCodec 1)
        (ascii "\x7b\"vanilla\":5,\"Topping\":3\x7d") sundaeInfo (sundae 7 9) noOptions
      = decodeReflectJSONStruct plainCodec (decodeReflectJSON plainCodec 1)
        (ascii "\x7b\"Topping\":3\x7d") sundaeInfo (sundae 7 9) noOptions :=
  ⟨by rfl,
   (decodeReflectJSONStruct_exact_key plainCodec (decodeReflectJSON plainCodec 1)
      (ascii "\x7b\"vanilla\":5,\"Topping\":3\x7d") sundaeInfo (sundae 7 9) noOptions
      [(ascii "Topping", ascii "3"), (ascii "vanilla", ascii "5")]
      (by rfl) (by decide)).1
      (fieldInfo "Topping" (.basic .Int32) 1 true false) (plainInfo (.basic .Int32))
      (ascii "3") (List.Mem.tail _ (List.Mem.head _)) (by decide) (List.Mem.head _)
      (by decide) (by rfl) (sundae 0 3) (by rfl),
   ((decodeReflectJSONStruct_exact_key plainCodec (decodeReflectJSON plainCodec 1)
      (ascii "\x7b\"vanilla\":5,\"Topping\":3\x7d") sundaeInfo (sundae 7 9) noOptions
      [(ascii "Topping", ascii "3"), (ascii "vanilla", ascii "5")]
      (by rfl) (by decide)).2 (fieldInfo "Vanilla" (.basic .Int32) 0 false false)
      (List.Mem.head _) (by decide)).2.1 (by rfl) (sundae 0 3) (by rfl),
   ((decodeReflectJSONStruct_exact_key plainCodec (decodeReflectJSON plainCodec 1)
      (ascii "\x7b\"vanilla\":5,\"Topping\":3\x7d") sundaeInfo (sundae 7 9) noOptions
      [(ascii "Topping", ascii "3"), (ascii "vanilla", ascii "5")]
      (by rfl) (by decide)).2 (fieldInfo "Vanilla" (.basic .Int32) 0 false false)
      (List.Mem.head _) (by decide)).2.2
      (ascii "\x7b\"Topping\":3\x7d") (by rfl) (by decide)⟩

/-- C11: for every struct descriptor, every destination and every input for
which `encoding/json` reports an error when asked for an object,
`decodeReflectJSONStruct` returns that error with the destination exactly as
it was, whatever the fields and the recursive decoder are, so no field is
visited; and the reference `encoding/json` reports such an error for every
valid JSON text that is neither an object nor `null` (an array, a string, a
number, a boolean). -/
theorem decodeReflectJSONStruct_not_object (cdc : Codec) (dec : Decoder)
    (bz : Bytes) (info : TypeInfo) (rv : Value) (fopts : FieldOptions) :
    (∀ err, cdc.json.UnmarshalRawMap bz = .error err →
      decodeReflectJSONStruct cdc dec bz info rv fopts = Outcome.ret rv (some err))
    ∧ (cdc.json = Json.std → ∀ raw, Json.document bz = some raw →
      raw.head? ≠ some 123 → raw ≠ ascii "null" →
      decodeReflectJSONStruct cdc dec bz info rv fopts
        = Outcome.ret rv (some Json.typeError)) := by
  have h1 : ∀ err, cdc.json.UnmarshalRawMap bz = .error err →
      decodeReflectJSONStruct cdc dec bz info rv fopts = Outcome.ret rv (some err) := by
    intro err herr
    simp only [decodeReflectJSONStruct, herr]
  refine ⟨h1, ?_⟩
  intro hstd raw hdoc hhead hnull
  apply h1
  have hmem : Json.membersOf raw = none := by
    cases raw with
    | nil => rfl
    | cons c body =>
      have hc : c ≠ 123 := fun e => hhead (by rw [e]; rfl)
      simp only [Json.membersOf]
      split
      · rename_i heq
        exact absurd (List.cons.inj heq).1 hc
      · rfl
  rw [hstd]
  simp only [Json.std, Json.UnmarshalRawMap, hdoc, hnull, if_false, hmem]

/-- C11 (witness): an array, a string, a number and a boolean decoded into a
struct holding 7 and 9. -/
theorem decodeReflectJSONStruct_not_object_witness :
    decodeReflectJSONStruct plainCodec (decodeReflectJSON plainCodec 1)
        (ascii "[1,2]") sundaeInfo (sundae 7 9) noOptions
      = Outcome.ret (sundae 7 9) (some Json.typeError)
    ∧ decodeReflectJSONStruct plainCodec (decodeReflectJSON plainCodec 1)
        (ascii "\"Vanilla\"") sundaeInfo (sundae 7 9) noOptions
      = Outcome.ret (sundae 7 9) (some Json.typeError)
    ∧ decodeReflectJSONStruct plainCodec (decodeReflectJSON plainCodec 1)
        (ascii "150") sundaeInfo (sundae 7 9) noOptions
      = Outcome.ret (sundae 7 9) (some Json.typeError)
    ∧ decodeReflectJSONStruct plainCodec (decodeReflectJSON plainCodec 1)
        (ascii "true") sundaeInfo (sundae 7 9) noOptions
      = Outcome.ret (sundae 7 9) (some Json.typeError) :=
  ⟨(decodeReflectJSONStruct_not_object plainCodec (decodeReflectJSON plainCodec 1)
      (ascii "[1,2]") sundaeInfo (sundae 7 9) noOptions).2 rfl (ascii "[1,2]")
      (by rfl) (by decide) (by decide),
   (decodeReflectJSONStruct_not_object plainCodec (decodeReflectJSON plainCodec 1)
      (ascii "\"Vanilla\"") sundaeInfo (sundae 7 9) noOptions).2 rfl (ascii "\"Vanilla\"")
      (by rfl) (by decide) (by decide),
   (decodeReflectJSONStruct_not_object plainCodec (decodeReflectJSON plainCodec 1)
      (ascii "150") sundaeInfo (sundae 7 9) noOptions).2 rfl (ascii "150")
      (by rfl) (by decide) (by decide),
   (decodeReflectJSONStruct_not_object plainCodec (decodeReflectJSON plainCodec 1)
      (ascii "true") sundaeInfo (sundae 7 9) noOptions).1 Json.typeError (by rfl)⟩

/-- C13 (the code at the failing input): for the type URL `t`,
`deriveJSONObject` on the object that starts with `"@type":"t",` followed by
`"a":1` returns the error that the object does not start with the `@type`
field; it returns an error on every input. -/
theorem deriveJSONObject_never_succeeds :
    deriveJSONObject (ascii "\x7b\"@type\":\"t\",\"a\":1\x7d") (ascii "t")
      = .error (Error.typeFieldExpected (ascii "\x7b\"@type\":\"t\",\"a\":1\x7d"))
    ∧ ∀ (bz typeURL res : Bytes), deriveJSONObject bz typeURL ≠ .ok res := by
  refine ⟨by rfl, ?_⟩
  intro bz typeURL res h
  obtain ⟨err, herr⟩ := deriveJSONObject_error bz typeURL
  rw [herr] at h
  exact Except.noConfusion h

/-- C15: for a descriptor of an interface type whose zero value is the nil
interface, every interface destination (nil or not) and every envelope whose
`@type` is extracted (hence not empty) but not resolved by the registry,
`decodeReflectJSONInterface` returns the resolver's error and leaves the
destination nil, whatever the recursive decoder is: no concrete value is
constructed or decoded. -/
theorem decodeReflectJSONInterface_unresolved (cdc : Codec) (dec : Decoder)
    (bz : Bytes) (iinfo : TypeInfo) (fopts : FieldOptions) (name : String)
    (dyn : Option Value) (typeURL value : Bytes) (err : Error)
    (htyp : iinfo.Typ = .iface name) (hzero : iinfo.ZeroValue = zero iinfo.Typ)
    (hext : extractJSONTypeURL cdc.json bz = .ok (typeURL, value))
    (hres : cdc.getTypeInfoFromTypeURLRLock typeURL fopts = .error err) :
    decodeReflectJSONInterface cdc dec bz iinfo (.iface name dyn) fopts
      = Outcome.ret (zero iinfo.Typ) (some err) := by
  rw [htyp] at hzero
  cases dyn <;>
    simp [decodeReflectJSONInterface, Value.isNil?, hext, hres, hzero, htyp, zero, Value.set]

/-- C15 (witness): an envelope with the unregistered type URL `pkg/Nope`
decoded into an interface that holds the `int32` 3. -/
theorem decodeReflectJSONInterface_unresolved_witness :
    decodeReflectJSONInterface msgCodec (decodeReflectJSON msgCodec 2)
        (ascii "\x7b\"@type\":\"pkg/Nope\",\"value\":1\x7d") ifaceInfo
        (.iface "I" (some (.int .Int32 3))) noOptions
      = Outcome.ret (.iface "I" none)
          (some (Error.typeInfo "unrecognized concrete type URL")) :=
  decodeReflectJSONInterface_unresolved msgCodec (decodeReflectJSON msgCodec 2)
    (ascii "\x7b\"@type\":\"pkg/Nope\",\"value\":1\x7d") ifaceInfo noOptions "I"
    (some (.int .Int32 3)) (ascii "pkg/Nope") (ascii "1")
    (Error.typeInfo "unrecognized concrete type URL") (by rfl) (by rfl) (by rfl) (by rfl)

/-- C17: decoding an empty sequence into a slice gives the descriptor's zero
value.  For a descriptor of a slice type with element type `ert`, every
destination and every input: (1) for elements that are not bytes, whose
descriptor the store provides, an input that `encoding/json` reads as an array
without elements makes `decodeReflectJSONSlice` succeed and set the
destination to `info.ZeroValue`; (2) for bytes, an input that `encoding/json`
stores into the destination without error, leaving length 0, does the same;
(3) with the reference `encoding/json`, a destination slice with any prior
content and a descriptor whose zero value is the nil slice: the text `[]`
(both cases) and the text `""` (bytes) leave the nil slice, which is also what
`decodeReflectJSON` leaves on `null`. -/
theorem decodeReflectJSONSlice_empty (cdc : Codec) (dec : Decoder)
    (info : TypeInfo) (rv : Value) (fopts : FieldOptions) (ert : RType)
    (helem : info.Typ.elem? = some ert) :
    (ert.kind ≠ Kind.Uint8 → ∀ (bz : Bytes) (einfo : TypeInfo),
      cdc.getTypeInfoWLock ert = .ok einfo → cdc.json.UnmarshalRawSlice bz = .ok [] →
      decodeReflectJSONSlice cdc dec bz info rv fopts
        = Outcome.ret (rv.set info.ZeroValue) none)
    ∧ (ert.kind = Kind.Uint8 → ∀ (bz : Bytes) (rv1 : Value),
      cdc.json.Unmarshal bz rv = (rv1, none) → rv1.len? = some 0 →
      decodeReflectJSONSlice cdc dec bz info rv fopts
        = Outcome.ret (rv1.set info.ZeroValue) none)
    ∧ (cdc.json = Json.std → ∀ (prior : Option (List Value)), rv = .slice ert prior →
      info.ZeroValue = .slice ert none →
      (ert.kind ≠ Kind.Uint8 → ∀ (einfo : TypeInfo), cdc.getTypeInfoWLock ert = .ok einfo →
        decodeReflectJSONSlice cdc dec (ascii "[]") info rv fopts
          = Outcome.ret (.slice ert none) none)
      ∧ (ert.kind = Kind.Uint8 →
        decodeReflectJSONSlice cdc dec (ascii "[]") info rv fopts
            = Outcome.ret (.slice ert none) none
        ∧ decodeReflectJSONSlice cdc dec (ascii "\"\"") info rv fopts
            = Outcome.ret (.slice ert none) none)
      ∧ (∀ (fuel : Nat), decodeReflectJSON cdc (fuel + 1) (ascii "null") info rv fopts
          = Outcome.ret (.slice ert none) none)) := by
  have hgen : ert.kind ≠ Kind.Uint8 → ∀ (bz : Bytes) (einfo : TypeInfo),
      cdc.getTypeInfoWLock ert = .ok einfo → cdc.json.UnmarshalRawSlice bz = .ok [] →
      decodeReflectJSONSlice cdc dec bz info rv fopts
        = Outcome.ret (rv.set info.ZeroValue) none := by
    intro hk bz einfo hinfo hraw
    cases hkind : ert.kind <;>
      first
        | exact absurd hkind hk
        | simp [decodeReflectJSONSlice, helem, hkind, hinfo, hraw]
  have hbyte : ert.kind = Kind.Uint8 → ∀ (bz : Bytes) (rv1 : Value),
      cdc.json.Unmarshal bz rv = (rv1, none) → rv1.len? = some 0 →
      decodeReflectJSONSlice cdc dec bz info rv fopts
        = Outcome.ret (rv1.set info.ZeroValue) none := by
    intro hk bz rv1 hun hlen
    simp [decodeReflectJSONSlice, helem, hk, hun, hlen]
  refine ⟨hgen, hbyte, ?_⟩
  intro hstd prior hrv hzero
  subst hrv
  refine ⟨?_, ?_, ?_⟩
  · intro hk einfo hinfo
    rw [hgen hk (ascii "[]") einfo hinfo (by rw [hstd]; rfl), hzero]
    rfl
  · intro hk
    have hert := RType.eq_of_kind_uint8 ert hk
    subst hert
    constructor
    · rw [hbyte hk (ascii "[]") (.slice (.basic .Uint8) (some [])) (by rw [hstd]; rfl)
        (by rfl), hzero]
      rfl
    · rw [hbyte hk (ascii "\"\"") (.slice (.basic .Uint8) (some [])) (by rw [hstd]; rfl)
        (by rfl), hzero]
      rfl
  · intro fuel
    have hg : ¬ (info.Typ.kind = Kind.Interface
        ∧ (Value.slice ert prior).kind = Kind.Ptr) := by
      intro h
      have : (Value.slice ert prior).kind = Kind.Slice := rfl
      rw [this] at h
      exact absurd h.2 (by decide)
    have h2 : nullBytes (ascii "null") = true := by decide
    simp only [decodeReflectJSON, hg, h2, if_false, if_true]
    rfl

/-- C17 (witness): `[]` into a slice of `int32` holding 7, and `[]` and `""`
into a byte slice holding 7. -/
theorem decodeReflectJSONSlice_empty_witness :
    decodeReflectJSONSlice plainCodec (decodeReflectJSON plainCodec 1) (ascii "[]")
        (plainInfo (.slice (.basic .Int32))) (.slice (.basic .Int32) (some [.int .Int32 7]))
        noOptions
      = Outcome.ret (.slice (.basic .Int32) none) none
    ∧ decodeReflectJSONSlice plainCodec (decodeReflectJSON plainCodec 1) (ascii "[]")
        (plainInfo (.slice (.basic .Uint8))) (.slice (.basic .Uint8) (some [.int .Uint8 7]))
        noOptions
      = Outcome.ret (.slice (.basic .Uint8) none) none
    ∧ decodeReflectJSONSlice plainCodec (decodeReflectJSON plainCodec 1) (ascii "\"\"")
        (plainInfo (.slice (.basic .Uint8))) (.slice (.basic .Uint8) (some [.int .Uint8 7]))
        noOptions
      = Outcome.ret (.slice (.basic .Uint8) none) none :=
  ⟨((decodeReflectJSONSlice_empty plainCodec (decodeReflectJSON plainCodec 1)
      (plainInfo (.slice (.basic .Int32))) (.slice (.basic .Int32) (some [.int .Int32 7]))
      noOptions (.basic .Int32) (by rfl)).2.2 rfl (some [.int .Int32 7]) rfl (by rfl)).1
      (by decide) (plainInfo (.basic .Int32)) (by rfl),
   (((decodeReflectJSONSlice_empty plainCodec (decodeReflectJSON plainCodec 1)
      (plainInfo (.slice (.basic .Uint8))) (.slice (.basic .Uint8) (some [.int .Uint8 7]))
      noOptions (.basic .Uint8) (by rfl)).2.2 rfl (some [.int .Uint8 7]) rfl (by rfl)).2.1
      (by decide)).1,
   (((decodeReflectJSONSlice_empty plainCodec (decodeReflectJSON plainCodec 1)
      (plainInfo (.slice (.basic .Uint8))) (.slice (.basic .Uint8) (some [.int .Uint8 7]))
      noOptions (.basic .Uint8) (by rfl)).2.2 rfl (some [.int .Uint8 7]) rfl (by rfl)).2.1
      (by decide)).2⟩

/-- C18: for a descriptor of a slice type whose elements are not bytes and have
a descriptor, a destination slice with any prior content, and an input that
`encoding/json` reads as an array of `n ≥ 1` raw elements each of which the
recursive decoder decodes without error into a zero value of the element
type, `decodeReflectJSONSlice` succeeds and leaves a slice holding exactly
those `n` decoded values in order; the prior content does not occur in the
result. -/
theorem decodeReflectJSONSlice_elements (cdc : Codec) (dec : Decoder) (bz : Bytes)
    (info : TypeInfo) (fopts : FieldOptions) (ert elem : RType)
    (prior : Option (List Value)) (einfo : TypeInfo) (rawSlice : List Bytes)
    (vs : List Value)
    (helem : info.Typ.elem? = some ert) (hkind : ert.kind ≠ Kind.Uint8)
    (hinfo : cdc.getTypeInfoWLock ert = .ok einfo)
    (hraw : cdc.json.UnmarshalRawSlice bz = .ok rawSlice) (hne : rawSlice ≠ [])
    (hall : List.Forall₂
      (fun ebz v => dec ebz einfo (zero ert) fopts = Outcome.ret v none) rawSlice vs) :
    decodeReflectJSONSlice cdc dec bz info (.slice elem prior) fopts
      = Outcome.ret (.slice ert (some vs)) none
    ∧ vs.length = rawSlice.length := by
  have hlen : rawSlice.length ≠ 0 := fun h => hne (List.length_eq_zero.mp h)
  have hloop := decodeElems_fresh dec einfo fopts ert rawSlice vs [] [] hall rfl
  simp only [List.nil_append, List.length_nil] at hloop
  refine ⟨?_, hall.length_eq.symm⟩
  cases hk : ert.kind <;>
    first
      | exact absurd hk hkind
      | simp [decodeReflectJSONSlice, helem, hk, hinfo, hraw, hlen, hloop, Value.set]

/-- C18 (witness): `[1,2]` into a slice of `int32` holding 7, 8, 9. -/
theorem decodeReflectJSONSlice_elements_witness :
    decodeReflectJSONSlice plainCodec (decodeReflectJSON plainCodec 1) (ascii "[1,2]")
        (plainInfo (.slice (.basic .Int32)))
        (.slice (.basic .Int32) (some [.int .Int32 7, .int .Int32 8, .int .Int32 9]))
        noOptions
      = Outcome.ret (.slice (.basic .Int32) (some [.int .Int32 1, .int .Int32 2])) none
    ∧ [Value.int .Int32 1, Value.int .Int32 2].length = [ascii "1", ascii "2"].length :=
  decodeReflectJSONSlice_elements plainCodec (decodeReflectJSON plainCodec 1)
    (ascii "[1,2]") (plainInfo (.slice (.basic .Int32))) noOptions (.basic .Int32)
    (.basic .Int32) (some [.int .Int32 7, .int .Int32 8, .int .Int32 9])
    (plainInfo (.basic .Int32)) [ascii "1", ascii "2"] [.int .Int32 1, .int .Int32 2]
    (by rfl) (by decide) (by rfl) (by rfl) (by decide)
    (List.Forall₂.cons (by rfl) (List.Forall₂.cons (by rfl) List.Forall₂.nil))

/-- C19 (amended): for every destination, a chain of `n = rv.derefSteps`
nested pointers, every descriptor that is not of interface kind and every
input other than `null`: the pointer loop, given at least `n` iterations, ends
after exactly `n` iterations at the variable `rv.derefPtrs`, which is not a
pointer, and fewer iterations do not end it; `decodeReflectJSON` is the
dispatch on that innermost variable; and the destination afterwards has no nil
level, the same `n` levels, and the dispatch's result in its innermost
variable. -/
theorem decodeReflectJSON_pointers (cdc : Codec) (fuel : Nat) (bz : Bytes)
    (info : TypeInfo) (rv : Value) (fopts : FieldOptions)
    (hinfo : info.Typ.kind ≠ Kind.Interface) (hnull : bz ≠ ascii "null") :
    (∀ k, rv.derefSteps ≤ k → derefLoop k rv = some (rv.derefPtrs, rv.derefSteps))
    ∧ (∀ k, k < rv.derefSteps → derefLoop k rv = none)
    ∧ rv.derefPtrs.kind ≠ Kind.Ptr
    ∧ decodeReflectJSON cdc (fuel + 1) bz info rv fopts
        = (decodeReflectJSONValue cdc (decodeReflectJSON cdc fuel) bz info
            rv.derefPtrs fopts).mapSt rv.storePtrs
    ∧ (∀ x : Value, x.kind ≠ Kind.Ptr →
        (rv.storePtrs x).allocated = true ∧ (rv.storePtrs x).derefPtrs = x
          ∧ (rv.storePtrs x).derefSteps = rv.derefSteps) := by
  refine ⟨derefLoop_eq rv, derefLoop_short rv, Value.derefPtrs_kind rv, ?_,
    fun x hx => Value.storePtrs_chain rv x hx⟩
  have h1 : ¬ (info.Typ.kind = Kind.Interface ∧ rv.kind = Kind.Ptr) := fun h => hinfo h.1
  have h2 : nullBytes bz = false := by simp [nullBytes, hnull]
  simp only [decodeReflectJSON, h1, h2, if_false, Bool.false_eq_true]

/-- C19 (witness): `5` decoded into a pointer to a nil pointer to `int32`: two
iterations, and the destination then points to a pointer to 5. -/
theorem decodeReflectJSON_pointers_witness :
    derefLoop 2 (.ptr (.ptr (.basic .Int32)) (some (.ptr (.basic .Int32) none)))
      = some (.int .Int32 0, 2)
    ∧ derefLoop 1 (.ptr (.ptr (.basic .Int32)) (some (.ptr (.basic .Int32) none))) = none
    ∧ decodeReflectJSON plainCodec 1 (ascii "5") (plainInfo (.basic .Int32))
        (.ptr (.ptr (.basic .Int32)) (some (.ptr (.basic .Int32) none))) noOptions
      = Outcome.ret (.ptr (.ptr (.basic .Int32))
          (some (.ptr (.basic .Int32) (some (.int .Int32 5))))) none :=
  ⟨(decodeReflectJSON_pointers plainCodec 0 (ascii "5") (plainInfo (.basic .Int32))
      (.ptr (.ptr (.basic .Int32)) (some (.ptr (.basic .Int32) none))) noOptions
      (by decide) (by decide)).1 2 (by decide),
   (decodeReflectJSON_pointers plainCodec 0 (ascii "5") (plainInfo (.basic .Int32))
      (.ptr (.ptr (.basic .Int32)) (some (.ptr (.basic .Int32) none))) noOptions
      (by decide) (by decide)).2.1 1 (by decide),
   ((decodeReflectJSON_pointers plainCodec 0 (ascii "5") (plainInfo (.basic .Int32))
      (.ptr (.ptr (.basic .Int32)) (some (.ptr (.basic .Int32) none))) noOptions
      (by decide) (by decide)).2.2.2.1).trans (by rfl)⟩

/-- C19 (counterexample): for a descriptor of interface kind and a destination
that is a nil pointer to that interface, a chain of one pointer,
`decodeReflectJSON` on the input `5` panics in front of the pointer loop: no
level is allocated and nothing is dispatched. -/
theorem decodeReflectJSON_pointer_to_iface :
    (Value.ptr (.iface "I") none).derefSteps = 1
    ∧ decodeReflectJSON plainCodec 1 (ascii "5") (plainInfo (.iface "I"))
        (.ptr (.iface "I") none) noOptions
      = Outcome.panic "should not happen"
    ∧ decodeReflectJSON plainCodec 1 (ascii "5") (plainInfo (.iface "I"))
        (.ptr (.iface "I") none) noOptions
      ≠ (decodeReflectJSONValue plainCodec (decodeReflectJSON plainCodec 0) (ascii "5")
          (plainInfo (.iface "I")) (Value.ptr (.iface "I") none).derefPtrs noOptions).mapSt
          (Value.ptr (.iface "I") none).storePtrs := by
  refine ⟨by rfl, by rfl, ?_⟩
  have h1 : decodeReflectJSON plainCodec 1 (ascii "5") (plainInfo (.iface "I"))
      (.ptr (.iface "I") none) noOptions = Outcome.panic "should not happen" := by rfl
  have h2 : (decodeReflectJSONValue plainCodec (decodeReflectJSON plainCodec 0) (ascii "5")
      (plainInfo (.iface "I")) (Value.ptr (.iface "I") none).derefPtrs noOptions).mapSt
      (Value.ptr (.iface "I") none).storePtrs
      = Outcome.ret (.ptr (.iface "I") (some (.iface "I" none)))
          (some (Error.cannotParseAny Json.typeError)) := by rfl
  rw [h1, h2]
  exact fun h => Outcome.noConfusion h

/-- C20: for a descriptor with a custom unmarshal hook that is not of interface
kind, an input other than `null` that the well-known stage does not handle
(the flag is off, or the hook declines without error and hands on `inner`),
and a representation type whose descriptor the store provides:
`decodeReflectJSON` with budget `fuel + 1` first runs `decodeReflectJSON` with
budget `fuel` on the same input into a zero value of the representation type;
an error of that decode is returned without the hook being applied; on
success the hook is applied once to the innermost variable and the
representation, and its content and error are the outcome.  The kind of the
descriptor's type plays no part. -/
theorem decodeReflectJSON_unmarshaler (cdc : Codec) (fuel : Nat) (bz : Bytes)
    (info : TypeInfo) (rv : Value) (fopts : FieldOptions) (inner : Value)
    (rinfo : TypeInfo)
    (hinfo : info.Typ.kind ≠ Kind.Interface) (hnull : bz ≠ ascii "null")
    (hwk : (info.IsJSONWellKnownType = false ∧ inner = rv.derefPtrs)
      ∨ (info.IsJSONWellKnownType = true
        ∧ cdc.decodeReflectJSONWellKnown bz info rv.derefPtrs fopts
            = { rv := inner, ok := false, err := none }))
    (hum : info.IsAminoUnmarshaler = true)
    (hrinfo : cdc.getTypeInfoWLock info.AminoUnmarshalReprType = .ok rinfo) :
    decodeReflectJSON cdc (fuel + 1) bz info rv fopts
      = match decodeReflectJSON cdc fuel bz rinfo (zero info.AminoUnmarshalReprType) fopts with
        | .ret _ (some err) => Outcome.ret (rv.storePtrs inner) (some err)
        | .ret rrv none =>
          Outcome.ret (rv.storePtrs (cdc.UnmarshalAmino inner rrv).1)
            (cdc.UnmarshalAmino inner rrv).2
        | .panic msg => Outcome.panic msg
        | .outOfFuel => Outcome.outOfFuel := by
  have h1 : ¬ (info.Typ.kind = Kind.Interface ∧ rv.kind = Kind.Ptr) := fun h => hinfo h.1
  have h2 : nullBytes bz = false := by simp [nullBytes, hnull]
  simp only [decodeReflectJSON, h1, h2, if_false, Bool.false_eq_true]
  have hval : decodeReflectJSONValue cdc (decodeReflectJSON cdc fuel) bz info
      rv.derefPtrs fopts
      = match decodeReflectJSON cdc fuel bz rinfo (zero info.AminoUnmarshalReprType) fopts with
        | .ret _ (some err) => Outcome.ret inner (some err)
        | .ret rrv none =>
          Outcome.ret (cdc.UnmarshalAmino inner rrv).1 (cdc.UnmarshalAmino inner rrv).2
        | .panic msg => Outcome.panic msg
        | .outOfFuel => Outcome.outOfFuel := by
    rcases hwk with ⟨hflag, hinner⟩ | ⟨hflag, hhook⟩
    · subst hinner
      simp only [decodeReflectJSONValue, hflag, hum, hrinfo, Bool.false_eq_true, if_false,
        if_true, Bool.false_or, Option.isSome_none]
    · simp only [decodeReflectJSONValue, hflag, hhook, hum, hrinfo, Bool.false_eq_true,
        if_false, if_true, Bool.false_or, Option.isSome_none]
  rw [hval]
  cases decodeReflectJSON cdc fuel bz rinfo (zero info.AminoUnmarshalReprType) fopts with
  | ret st err => cases err <;> rfl
  | panic msg => rfl
  | outOfFuel => rfl

/-- C20 (witness): with the hook of `Celsius`, `36` is decoded as an `int32`
and stored by the hook; `-300` is decoded and rejected by the hook; the string
`"x"` fails to decode as an `int32`, and the hook's error does not occur. -/
theorem decodeReflectJSON_unmarshaler_witness :
    decodeReflectJSON celsiusCodec 2 (ascii "36") celsiusInfo
        (.struct "Celsius" [.int .Int32 0]) noOptions
      = Outcome.ret (.struct "Celsius" [.int .Int32 36]) none
    ∧ decodeReflectJSON celsiusCodec 2 (ascii "-300") celsiusInfo
        (.struct "Celsius" [.int .Int32 0]) noOptions
      = Outcome.ret (.struct "Celsius" [.int .Int32 0])
          (some (Error.hook "below absolute zero"))
    ∧ decodeReflectJSON celsiusCodec 2 (ascii "\"x\"") celsiusInfo
        (.struct "Celsius" [.int .Int32 0]) noOptions
      = Outcome.ret (.struct "Celsius" [.int .Int32 0]) (some Json.typeError) :=
  ⟨(decodeReflectJSON_unmarshaler celsiusCodec 1 (ascii "36") celsiusInfo
      (.struct "Celsius" [.int .Int32 0]) noOptions (.struct "Celsius" [.int .Int32 0])
      (plainInfo (.basic .Int32)) (by decide) (by decide) (Or.inl ⟨rfl, rfl⟩) rfl
      (by rfl)).trans (by rfl),
   (decodeReflectJSON_unmarshaler celsiusCodec 1 (ascii "-300") celsiusInfo
      (.struct "Celsius" [.int .Int32 0]) noOptions (.struct "Celsius" [.int .Int32 0])
      (plainInfo (.basic .Int32)) (by decide) (by decide) (Or.inl ⟨rfl, rfl⟩) rfl
      (by rfl)).trans (by rfl),
   (decodeReflectJSON_unmarshaler celsiusCodec 1 (ascii "\"x\"") celsiusInfo
      (.struct "Celsius" [.int .Int32 0]) noOptions (.struct "Celsius" [.int .Int32 0])
      (plainInfo (.basic .Int32)) (by decide) (by decide) (Or.inl ⟨rfl, rfl⟩) rfl
      (by rfl)).trans (by rfl)⟩

/-- C21: for a descriptor flagged as a JSON well-known type that is not of
interface kind, every positive recursion budget and every input other than
`null`: (1) when the well-known decoder reports that it handled the value, or
returns an error, `decodeReflectJSON` returns the decoder's error with the
decoder's content in the innermost variable, whatever the custom hook, the
kind and the recursive decoder are; (2) when the decoder declines without
error and hands on `inner`, the outcome is that of the part after the pointer
loop for the descriptor with the flag cleared, run on `inner`; (3) when the
declining decoder leaves the destination as it is, the outcome equals that of
`decodeReflectJSON` on the same input for the descriptor with the flag
cleared. -/
theorem decodeReflectJSON_wellKnown (cdc : Codec) (fuel : Nat) (bz : Bytes)
    (info : TypeInfo) (rv : Value) (fopts : FieldOptions)
    (hflag : info.IsJSONWellKnownType = true)
    (hinfo : info.Typ.kind ≠ Kind.Interface) (hnull : bz ≠ ascii "null") :
    (∀ wk : WellKnownResult, cdc.decodeReflectJSONWellKnown bz info rv.derefPtrs fopts = wk →
      (wk.ok = true ∨ wk.err.isSome = true) →
      decodeReflectJSON cdc (fuel + 1) bz info rv fopts
        = Outcome.ret (rv.storePtrs wk.rv) wk.err)
    ∧ (∀ inner : Value, cdc.decodeReflectJSONWellKnown bz info rv.derefPtrs fopts
        = { rv := inner, ok := false, err := none } →
      decodeReflectJSON cdc (fuel + 1) bz info rv fopts
        = (decodeReflectJSONValue cdc (decodeReflectJSON cdc fuel) bz info.clearWellKnown
            inner fopts).mapSt rv.storePtrs)
    ∧ (cdc.decodeReflectJSONWellKnown bz info rv.derefPtrs fopts
        = { rv := rv.derefPtrs, ok := false, err := none } →
      decodeReflectJSON cdc (fuel + 1) bz info rv fopts
        = decodeReflectJSON cdc (fuel + 1) bz info.clearWellKnown rv fopts) := by
  have h1 : ¬ (info.Typ.kind = Kind.Interface ∧ rv.kind = Kind.Ptr) := fun h => hinfo h.1
  have h1c : ¬ (info.clearWellKnown.Typ.kind = Kind.Interface ∧ rv.kind = Kind.Ptr) :=
    fun h => hinfo h.1
  have h2 : nullBytes bz = false := by simp [nullBytes, hnull]
  have hdeclined : ∀ inner : Value, cdc.decodeReflectJSONWellKnown bz info rv.derefPtrs fopts
        = { rv := inner, ok := false, err := none } →
      decodeReflectJSON cdc (fuel + 1) bz info rv fopts
        = (decodeReflectJSONValue cdc (decodeReflectJSON cdc fuel) bz info.clearWellKnown
            inner fopts).mapSt rv.storePtrs := by
    intro inner hhook
    simp only [decodeReflectJSON, h1, h2, if_false, Bool.false_eq_true]
    rw [decodeReflectJSONValue_declined cdc _ bz info rv.derefPtrs inner fopts hflag hhook]
  refine ⟨?_, hdeclined, ?_⟩
  · intro wk hwk hhandled
    have hcond : (wk.ok || wk.err.isSome) = true := by
      rcases hhandled with h | h <;> simp [h]
    simp only [decodeReflectJSON, h1, h2, if_false, Bool.false_eq_true,
      decodeReflectJSONValue, hflag, if_true, hwk, hcond, Outcome.mapSt]
  · intro hhook
    rw [hdeclined rv.derefPtrs hhook]
    simp only [decodeReflectJSON, h1c, h2, if_false, Bool.false_eq_true]

/-- C21 (witness): with the well-known decoder of `Stamp`, the text `"epoch"`
is handled, the text `"never"` is the decoder's error, and the object with
`"Sec":5` is declined and decoded as for the descriptor without the flag. -/
theorem decodeReflectJSON_wellKnown_witness :
    decodeReflectJSON stampCodec 2 (ascii "\"epoch\"") stampInfo
        (.struct "Stamp" [.int .Int32 9]) noOptions
      = Outcome.ret (.struct "Stamp" [.int .Int32 0]) none
    ∧ decodeReflectJSON stampCodec 2 (ascii "\"never\"") stampInfo
        (.struct "Stamp" [.int .Int32 9]) noOptions
      = Outcome.ret (.struct "Stamp" [.int .Int32 9]) (some (Error.hook "no such time"))
    ∧ decodeReflectJSON stampCodec 2 (ascii "\x7b\"Sec\":5\x7d") stampInfo
        (.struct "Stamp" [.int .Int32 9]) noOptions
      = decodeReflectJSON stampCodec 2 (ascii "\x7b\"Sec\":5\x7d") stampInfo.clearWellKnown
        (.struct "Stamp" [.int .Int32 9]) noOptions :=
  ⟨(decodeReflectJSON_wellKnown stampCodec 1 (ascii "\"epoch\"") stampInfo
      (.struct "Stamp" [.int .Int32 9]) noOptions rfl (by decide) (by decide)).1
      { rv := .struct "Stamp" [.int .Int32 0], ok := true, err := none } (by rfl)
      (Or.inl rfl),
   (decodeReflectJSON_wellKnown stampCodec 1 (ascii "\"never\"") stampInfo
      (.struct "Stamp" [.int .Int32 9]) noOptions rfl (by decide) (by decide)).1
      { rv := .struct "Stamp" [.int .Int32 9], ok := false,
        err := some (Error.hook "no such time") } (by rfl) (Or.inr rfl),
   (decodeReflectJSON_wellKnown stampCodec 1 (ascii "\x7b\"Sec\":5\x7d") stampInfo
      (.struct "Stamp" [.int .Int32 9]) noOptions rfl (by decide) (by decide)).2.2
      (by rfl)⟩

/-- C22: in the binary decoder modelled from the spec, a struct whose first
declared field is an integer field with number `f.num` and kind `f.kind`,
decoded from the tag of that field with the varint wire type followed by the
uvarint of a 64-bit value that lies outside the range of `f.kind`, gives the
error `Overflow`, whatever follows on the wire; so does the test's input, the
tag of field 1 and the uvarint of `math.MaxInt32 + 1` decoded into
`TestInts`, whose field 1 is an `int32`, while `math.MaxInt32` itself is
decoded. -/
theorem Binary.decodeStruct_overflow (f : Binary.BinField) (fs : List Binary.BinField)
    (v : Nat) (rest : Bytes) (lo hi : Int)
    (hv : v < 2 ^ 64) (hnum : f.num * 8 < 2 ^ 64)
    (hrange : Json.intRange f.kind = some (lo, hi))
    (hout : Binary.wireValue lo v < lo ∨ hi < Binary.wireValue lo v) :
    Binary.decodeStruct (f :: fs)
        (Binary.putUvarint (f.num * 8 + 0) ++ (Binary.putUvarint v ++ rest))
      = .error Binary.BinError.overflow
    ∧ Binary.decodeStruct Binary.testInts
        (Binary.putUvarint (1 * 8 + 0) ++ Binary.putUvarint (2147483647 + 1))
      = .error Binary.BinError.overflow
    ∧ Binary.decodeStruct Binary.testInts
        (Binary.putUvarint (1 * 8 + 0) ++ Binary.putUvarint 2147483647)
      = .ok [2147483647, 0] := by
  refine ⟨?_, by rfl, by rfl⟩
  have htag := Binary.readUvarint_putUvarint (f.num * 8 + 0) (Binary.putUvarint v ++ rest)
    (by simpa using hnum)
  have hval := Binary.readUvarint_putUvarint v rest hv
  have hnot : ¬ (lo ≤ Binary.wireValue lo v ∧ Binary.wireValue lo v ≤ hi) := by
    rintro ⟨h1, h2⟩
    rcases hout with h | h <;> omega
  have hfield : Binary.decodeVarintField f.kind (Binary.putUvarint v ++ rest)
      = .error Binary.BinError.overflow := by
    simp only [Binary.decodeVarintField, hval, hrange, hnot, if_false]
  have hdiv : (f.num * 8 + 0) / 8 = f.num := by omega
  have hmod : (f.num * 8 + 0) % 8 = 0 := by omega
  simp only [Binary.decodeStruct, htag, hdiv, hmod, if_true, hfield]

/-- C22 (witness): the first field of `TestInts` and the value
`math.MaxInt32 + 1`, followed by a second field on the wire. -/
theorem Binary.decodeStruct_overflow_witness :
    Binary.decodeStruct Binary.testInts
        (Binary.putUvarint (1 * 8 + 0)
          ++ (Binary.putUvarint 2147483648 ++ [16, 5]))
      = .error Binary.BinError.overflow :=
  (Binary.decodeStruct_overflow { num := 1, kind := .Int32 } [{ num := 2, kind := .Int64 }]
    2147483648 [16, 5] (-2147483648) 2147483647 (by norm_num) (by norm_num) (by rfl)
    (Or.inr (by decide))).1

/-- C23 (the code at the failing inputs): for an `int64` destination,
`decodeReflectJSON` on the empty input panics at `bz[0]` and on the single
byte `"` panics at `bz[1 : len(bz)-1]`; the empty input is reached through
`decodeReflectJSONInterface` from an envelope with the type URL of a
pass-through `int64` and no `value` member. -/
theorem decodeReflectJSON_int64_panics :
    decodeReflectJSON plainCodec 1 [] (plainInfo (.basic .Int64)) (.int .Int64 7) noOptions
      = Outcome.panic "index out of range [0] with length 0"
    ∧ decodeReflectJSON plainCodec 1 (ascii "\"") (plainInfo (.basic .Int64))
        (.int .Int64 7) noOptions
      = Outcome.panic "slice bounds out of range [1:0]"
    ∧ decodeReflectJSONInterface int64Codec (decodeReflectJSON int64Codec 1)
        (ascii "\x7b\"@type\":\"pkg/Int64\"\x7d") ifaceInfo (.iface "I" none) noOptions
      = Outcome.panic "index out of range [0] with length 0"
    ∧ (decodeReflectJSON plainCodec 1 [] (plainInfo (.basic .Int64)) (.int .Int64 7)
        noOptions).returned = false :=
  ⟨by rfl, by rfl, by rfl, by rfl⟩

/-- C24: for a descriptor of the array type `[n]T` whose elements are not bytes
and have a descriptor, every destination and every input that `encoding/json`
reads as an array of `m ≠ n` raw elements, `decodeReflectJSONArray` returns the
length-mismatch error with the destination exactly as it was, whatever the
recursive decoder is: no element is decoded. -/
theorem decodeReflectJSONArray_length_mismatch (cdc : Codec) (dec : Decoder)
    (bz : Bytes) (info : TypeInfo) (rv : Value) (fopts : FieldOptions) (n : Nat)
    (ert : RType) (einfo : TypeInfo) (rawSlice : List Bytes)
    (htyp : info.Typ = .array n ert) (hkind : ert.kind ≠ Kind.Uint8)
    (hinfo : cdc.getTypeInfoWLock ert = .ok einfo)
    (hraw : cdc.json.UnmarshalRawSlice bz = .ok rawSlice) (hlen : rawSlice.length ≠ n) :
    decodeReflectJSONArray cdc dec bz info rv fopts
      = Outcome.ret rv (some (Error.lengthMismatch rawSlice.length n)) := by
  cases hk : ert.kind <;>
    first
      | exact absurd hk hkind
      | simp [decodeReflectJSONArray, htyp, RType.elem?, RType.len?, hk, hinfo, hraw, hlen]

/-- C24 (witness): `[1,2,3]` into a `[2]int32` holding 7, 8. -/
theorem decodeReflectJSONArray_length_mismatch_witness :
    decodeReflectJSONArray plainCodec (decodeReflectJSON plainCodec 1) (ascii "[1,2,3]")
        (plainInfo (.array 2 (.basic .Int32)))
        (.array (.basic .Int32) [.int .Int32 7, .int .Int32 8]) noOptions
      = Outcome.ret (.array (.basic .Int32) [.int .Int32 7, .int .Int32 8])
          (some (Error.lengthMismatch 3 2)) :=
  decodeReflectJSONArray_length_mismatch plainCodec (decodeReflectJSON plainCodec 1)
    (ascii "[1,2,3]") (plainInfo (.array 2 (.basic .Int32)))
    (.array (.basic .Int32) [.int .Int32 7, .int .Int32 8]) noOptions 2 (.basic .Int32)
    (plainInfo (.basic .Int32)) [ascii "1", ascii "2", ascii "3"]
    (by rfl) (by decide) (by rfl) (by rfl) (by decide)

/-- C25 (amended): for a descriptor of a slice type whose elements are not
bytes, `decodeReflectJSONSlice` is atomic on failure: (1) whenever it returns an
error, the destination is exactly what it was; (2) an error of `encoding/json`
reading the input as an array is returned; (3) when the raw elements in front
of an element decode without error and that element's decode returns an
error, that error is returned; (4) the reference `encoding/json` reports an
error for every valid JSON text that is neither an array nor `null`. -/
theorem decodeReflectJSONSlice_atomic (cdc : Codec) (dec : Decoder) (bz : Bytes)
    (info : TypeInfo) (rv : Value) (fopts : FieldOptions) (ert : RType)
    (helem : info.Typ.elem? = some ert) (hkind : ert.kind ≠ Kind.Uint8) :
    (∀ (rv1 : Value) (err : Error),
      decodeReflectJSONSlice cdc dec bz info rv fopts = Outcome.ret rv1 (some err) →
      rv1 = rv)
    ∧ (∀ (einfo : TypeInfo) (err : Error), cdc.getTypeInfoWLock ert = .ok einfo →
      cdc.json.UnmarshalRawSlice bz = .error err →
      decodeReflectJSONSlice cdc dec bz info rv fopts = Outcome.ret rv (some err))
    ∧ (∀ (einfo : TypeInfo) (good : List Bytes) (vs : List Value) (bad : Bytes)
        (post : List Bytes) (v : Value) (err : Error),
      cdc.getTypeInfoWLock ert = .ok einfo →
      cdc.json.UnmarshalRawSlice bz = .ok (good ++ bad :: post) →
      List.Forall₂ (fun ebz w => dec ebz einfo (zero ert) fopts = Outcome.ret w none)
        good vs →
      dec bad einfo (zero ert) fopts = Outcome.ret v (some err) →
      decodeReflectJSONSlice cdc dec bz info rv fopts = Outcome.ret rv (some err))
    ∧ (cdc.json = Json.std → ∀ (einfo : TypeInfo) (raw : Bytes),
      cdc.getTypeInfoWLock ert = .ok einfo → Json.document bz = some raw →
      raw.head? ≠ some 91 → raw ≠ ascii "null" →
      decodeReflectJSONSlice cdc dec bz info rv fopts
        = Outcome.ret rv (some Json.typeError)) := by
  have hgen := decodeReflectJSONSlice_general cdc dec bz info rv fopts ert helem hkind
  have hparse : ∀ (einfo : TypeInfo) (err : Error), cdc.getTypeInfoWLock ert = .ok einfo →
      cdc.json.UnmarshalRawSlice bz = .error err →
      decodeReflectJSONSlice cdc dec bz info rv fopts = Outcome.ret rv (some err) := by
    intro einfo err hinfo hraw
    rw [hgen]
    simp only [hinfo, hraw]
  refine ⟨?_, hparse, ?_, ?_⟩
  · intro rv1 err h
    rw [hgen] at h
    cases hinfo : cdc.getTypeInfoWLock ert with
    | error e =>
      simp only [hinfo, Outcome.ret.injEq] at h
      exact h.1.symm
    | ok einfo =>
      simp only [hinfo] at h
      cases hraw : cdc.json.UnmarshalRawSlice bz with
      | error e =>
        simp only [hraw, Outcome.ret.injEq] at h
        exact h.1.symm
      | ok rawSlice =>
        simp only [hraw] at h
        by_cases hlen : rawSlice.length = 0
        · simp [hlen] at h
        · simp only [hlen, if_false] at h
          cases hloop : decodeElems dec einfo fopts rawSlice rawSlice.length 0
              (Value.slice ert (some (List.replicate rawSlice.length (zero ert)))) with
          | ret srv e1 =>
            cases e1 with
            | none => simp [hloop] at h
            | some e =>
              simp only [hloop, Outcome.ret.injEq] at h
              exact h.1.symm
          | panic msg => simp [hloop] at h
          | outOfFuel => simp [hloop] at h
  · intro einfo good vs bad post v err hinfo hraw hgood hbad
    obtain ⟨srv, hloop⟩ := decodeElems_fail dec einfo fopts ert bad post v err hbad
      good vs [] [] hgood rfl
    simp only [List.nil_append, List.length_nil] at hloop
    have hlen : (good ++ bad :: post).length ≠ 0 := by simp
    rw [hgen]
    simp only [hinfo, hraw, hlen, if_false, hloop]
  · intro hstd einfo raw hinfo hdoc hhead hnull
    apply hparse einfo Json.typeError hinfo
    have helems : Json.elementsOf raw = none := by
      cases raw with
      | nil => rfl
      | cons c body =>
        have hc : c ≠ 91 := fun e => hhead (by rw [e]; rfl)
        simp only [Json.elementsOf]
        split
        · rename_i heq
          exact absurd (List.cons.inj heq).1 hc
        · rfl
    rw [hstd]
    simp only [Json.std, Json.UnmarshalRawSlice, hdoc, hnull, if_false, helems]

/-- C25 (witness): into a slice of `int32` holding 7, the array whose second
element is a string fails at that element, and an object is not an array; the
slice still holds 7. -/
theorem decodeReflectJSONSlice_atomic_witness :
    decodeReflectJSONSlice plainCodec (decodeReflectJSON plainCodec 1) (ascii "[1,\"x\"]")
        (plainInfo (.slice (.basic .Int32))) (.slice (.basic .Int32) (some [.int .Int32 7]))
        noOptions
      = Outcome.ret (.slice (.basic .Int32) (some [.int .Int32 7])) (some Json.typeError)
    ∧ decodeReflectJSONSlice plainCodec (decodeReflectJSON plainCodec 1)
        (ascii "\x7b\"a\":1\x7d")
        (plainInfo (.slice (.basic .Int32))) (.slice (.basic .Int32) (some [.int .Int32 7]))
        noOptions
      = Outcome.ret (.slice (.basic .Int32) (some [.int .Int32 7])) (some Json.typeError) :=
  ⟨(decodeReflectJSONSlice_atomic plainCodec (decodeReflectJSON plainCodec 1)
      (ascii "[1,\"x\"]") (plainInfo (.slice (.basic .Int32)))
      (.slice (.basic .Int32) (some [.int .Int32 7])) noOptions (.basic .Int32) (by rfl)
      (by decide)).2.2.1 (plainInfo (.basic .Int32)) [ascii "1"] [.int .Int32 1]
      (ascii "\"x\"") [] (.int .Int32 0) Json.typeError (by rfl) (by rfl)
      (List.Forall₂.cons (by rfl) List.Forall₂.nil) (by rfl),
   (decodeReflectJSONSlice_atomic plainCodec (decodeReflectJSON plainCodec 1)
      (ascii "\x7b\"a\":1\x7d") (plainInfo (.slice (.basic .Int32)))
      (.slice (.basic .Int32) (some [.int .Int32 7])) noOptions (.basic .Int32) (by rfl)
      (by decide)).2.2.2 rfl (plainInfo (.basic .Int32)) (ascii "\x7b\"a\":1\x7d")
      (by rfl) (by rfl) (by decide) (by decide)⟩

/-- C25 (counterexample): the input `null`, which is not a JSON array, decoded
by `decodeReflectJSONSlice` into a slice of `int32` holding 7 returns no error
and leaves the nil slice, so the destination is not what it was. -/
theorem decodeReflectJSONSlice_null_input :
    decodeReflectJSONSlice plainCodec (decodeReflectJSON plainCodec 1) (ascii "null")
        (plainInfo (.slice (.basic .Int32))) (.slice (.basic .Int32) (some [.int .Int32 7]))
        noOptions
      = Outcome.ret (.slice (.basic .Int32) none) none
    ∧ Value.slice (.basic .Int32) none ≠ Value.slice (.basic .Int32) (some [.int .Int32 7]) := by
  refine ⟨by rfl, ?_⟩
  intro h
  injection h with _ h2
  exact Option.noConfusion h2

end Amino
